import Mathlib

/-!
# Hyperion action streamer: the polling loop of `pkg/streamer/streamer.go`

A shallow embedding of `Streamer.Start` and `getGlobalSequence`.

* Unsigned 64-bit values are natural numbers; every operation that can wrap in
  Go is written with an explicit `% 2 ^ 64`.  `time.Duration` is a signed
  64-bit count of nanoseconds, an `Int` folded back into range by `wrapInt64`.
* The goroutine is driven by a list of `Round`s.  A round holds what the outside
  world answers during one iteration of the `for` loop: the outcome of the HTTP
  exchange, the result of the wait (if the iteration waits) and the state of
  the context at the final `select` (if the iteration gets there).
* What the goroutine does is recorded as a list of `Event`s: queries handed to
  the HTTP client, waits started, and batches sent on the data channel.
-/

namespace Hyperion

/-! ## Data model -/

/-- The `Filter` of the source: one key/value pair added verbatim to the query. -/
structure Filter where
  Key : String
  Value : String
deriving DecidableEq, Repr

/-- The type `json.RawMessage`: an uninterpreted slice of the response body. -/
abbrev RawMessage := String

/-- The `Batch` of the source.  `HeadGlobalSequence` is a `uint64`, `HeadBlock` a
`uint32`; the loop only copies and compares them. -/
structure Batch where
  HeadGlobalSequence : Nat
  HeadBlock : Nat
  Actions : List RawMessage
deriving DecidableEq, Repr

/-- A finite `float64`, as the number `(-1) ^ neg * mant * 2 ^ exp`.  Every
finite IEEE 754 binary64 value has this form with `mant < 2 ^ 53`; the JSON
decoder never produces an infinity or a NaN (a literal that overflows is a
decode failure of the whole body). -/
structure Float64 where
  neg : Bool
  mant : Nat
  exp : Int
deriving DecidableEq, Repr

/-- What `encoding/json` stores in a field of type `any`: `nil`, `bool`,
`float64`, `string`, `[]any` or `map[string]any`. -/
inductive JsonAny where
  | null
  | bool (b : Bool)
  | number (f : Float64)
  | string (s : String)
  | array (elems : List JsonAny)
  | object (fields : List (String × JsonAny))

/-- The `getActionsResponseAction` of the source. -/
structure getActionsResponseAction where
  BlockNum : Nat
  GlobalSequence : JsonAny
  Act : RawMessage

/-- The `getActionsResponse` of the source.  The fields `query_time_ms`, `cached`,
`last_indexed_block` and `total` are decoded but never read; only `Actions`
is kept here. -/
structure getActionsResponse where
  Actions : List getActionsResponseAction

deriving instance DecidableEq for Except

/-! ## `strconv.ParseUint(s, 10, 64)` -/

/-- The two failures of `strconv.ParseUint`: `ErrSyntax` and `ErrRange`. -/
inductive NumError where
  | syntaxErr
  | rangeErr
deriving DecidableEq, Repr

/-- Largest `uint64`. -/
def maxUint64 : Nat := 2 ^ 64 - 1

/-- The `cutoff` of `ParseUint` for base 10: the least number whose tenfold
exceeds `maxUint64`. -/
def cutoff : Nat := maxUint64 / 10 + 1

/-- The `lower` helper of `strconv`: `c | ('x' - 'X')`. -/
def lower (c : Nat) : Nat := c ||| 0x20

/-- The digit value `ParseUint` assigns to one input unit, `none` for the
`default` branch of its `switch`.  The underscore branch needs `base == 0` and
is never taken at base 10.  Go walks over the bytes of the string; a character
outside ASCII is encoded by bytes that are all at least `0x80`, each of which
falls in the `default` branch, so walking over characters decides the same. -/
def digitOf (c : Char) : Option Nat :=
  if 48 ≤ c.toNat ∧ c.toNat ≤ 57 then some (c.toNat - 48)
  else if c.toNat < 128 ∧ 97 ≤ lower c.toNat ∧ lower c.toNat ≤ 122 then
    some (lower c.toNat - 97 + 10)
  else none

/-- The `for _, c := range []byte(s)` loop of `ParseUint` with `base = 10` and
`bitSize = 64`, `n` being the accumulator. -/
def parseUintLoop : Nat → List Char → Except NumError Nat
  | n, [] => .ok n
  | n, c :: cs =>
    match digitOf c with
    | none => .error .syntaxErr
    | some d =>
      if d ≥ 10 then .error .syntaxErr
      else if n ≥ cutoff then .error .rangeErr
      else
        let n10 := n * 10 % 2 ^ 64
        let n1 := (n10 + d) % 2 ^ 64
        if n1 < n10 ∨ n1 > maxUint64 then .error .rangeErr
        else parseUintLoop n1 cs

/-- The call `strconv.ParseUint(s, 10, 64)`. -/
def parseUint (s : String) : Except NumError Nat :=
  if s = "" then .error .syntaxErr else parseUintLoop 0 s.data

/-! ## Conversion `uint64(f)` of a `float64` -/

/-- The integer obtained from a float by discarding its fraction. -/
def Float64.trunc (f : Float64) : Int :=
  let m : Nat := if 0 ≤ f.exp then f.mant * 2 ^ f.exp.toNat else f.mant / 2 ^ (-f.exp).toNat
  if f.neg then -(m : Int) else (m : Int)

/-- The conversion `uint64(f)`: truncation toward zero.  When the truncated
value is not a `uint64` the Go specification leaves the result to the
implementation; `outOfRange` supplies it. -/
def toUint64 (outOfRange : Float64 → Nat) (f : Float64) : Nat :=
  if 0 ≤ f.trunc ∧ f.trunc < 2 ^ 64 then f.trunc.toNat else outOfRange f % 2 ^ 64

/-- Number of low bits to drop from `n` so that at most 53 bits remain; `fuel`
bounds the search and `n` itself is always enough. -/
def excessBits : Nat → Nat → Nat
  | 0, _ => 0
  | fuel + 1, n => if n < 2 ^ 53 then 0 else excessBits fuel (n / 2) + 1

/-- The `float64` that `encoding/json` stores in an `any` field for a JSON
number whose value is the natural number `n`, whether written `n` or `n.0`:
the decoder calls `strconv.ParseFloat(s, 64)`, which returns the `float64`
nearest to the number written, ties going to the even mantissa.  (Meant for
`n` below `2 ^ 1024`; larger literals make the decoder fail.) -/
def decodeNumber (n : Nat) : Float64 :=
  let k := excessBits n n
  let q := n / 2 ^ k
  let r := n % 2 ^ k
  let up : Bool := decide (2 ^ k < 2 * r) || (decide (2 * r = 2 ^ k) && decide (q % 2 = 1))
  ⟨false, if up then q + 1 else q, (k : Int)⟩

/-! ## `getGlobalSequence` -/

/-- The two errors `getGlobalSequence` builds. -/
inductive SeqError where
  | parse (e : NumError)
  | unexpectedType
deriving DecidableEq, Repr

/-- The function `getGlobalSequence` of the source. -/
def getGlobalSequence (outOfRange : Float64 → Nat) (act : getActionsResponseAction) :
    Except SeqError Nat :=
  match act.GlobalSequence with
  | .string gsStr =>
    match parseUint gsStr with
    | .error e => .error (.parse e)
    | .ok globalSequence => .ok globalSequence
  | .number gsF => .ok (toUint64 outOfRange gsF)
  | _ => .error .unexpectedType

/-! ## The loop of `Streamer.Start` -/

/-- The `Streamer` of the source.  `Client` performs the HTTP exchange, whose
outcome is an input of each round; `Logger` only receives messages.
`PageLimit` is an `int`, `SleepBase` a `time.Duration` in nanoseconds. -/
structure Streamer where
  BaseURL : String
  PageLimit : Int
  SleepBase : Int
deriving DecidableEq, Repr

/-- Reduction of an integer to the signed 64-bit range (two's complement). -/
def wrapInt64 (x : Int) : Int := (x + 2 ^ 63) % 2 ^ 64 - 2 ^ 63

/-- The constant `time.Millisecond` in nanoseconds. -/
def Millisecond : Int := 1000000

/-- The constant `time.Second` in nanoseconds. -/
def Second : Int := 1000000000

/-- The constant `globalSequenceUpperBound := uint64(math.MaxInt64)`. -/
def globalSequenceUpperBound : Nat := 2 ^ 63 - 1

/-- The value `fmt.Sprintf("%d-%d", globalSequenceLowerBound+1,
globalSequenceUpperBound)` of the `global_sequence` parameter; the addition is
a `uint64` addition. -/
def rangeParam (lowerBound : Nat) : String :=
  toString ((lowerBound + 1) % 2 ^ 64) ++ "-" ++ toString globalSequenceUpperBound

/-- The `url.Values` built at the top of each iteration, as the list of the
`q.Add` calls in order. -/
def buildQuery (s : Streamer) (filters : List Filter) (lowerBound : Nat) :
    List (String × String) :=
  let limit : Int := if s.PageLimit = 0 then 100 else s.PageLimit
  [("sort", "asc"), ("limit", toString limit), ("global_sequence", rangeParam lowerBound)]
    ++ filters.map (fun f => (f.Key, f.Value))

/-- The value of `ctx.Err()` once `ctx.Done()` is closed: one of the two non-nil errors of
package `context`. -/
inductive CtxError where
  | canceled
  | deadlineExceeded
deriving DecidableEq, Repr

/-- The errors the loop body returns, one constructor per `return` site. -/
inductive StreamError where
  | newRequest
  | httpRequest
  | sleep
  | httpStatus (status : Int)
  | decodeBody
  | getGlobalSequence (e : SeqError)
  | outOfOrder (head lowerBound : Nat)
  | ctx (e : CtxError)
deriving DecidableEq, Repr

/-- Outcome of the HTTP exchange of one iteration: `http.NewRequestWithContext`
fails, `s.Client.Do` fails, or a response arrives with its status code and the
result of `json.NewDecoder(resp.Body).Decode(&res)` (`none` when decoding
fails; only consulted when the status lets the loop decode). -/
inductive Fetch where
  | newRequestError
  | doError
  | response (StatusCode : Int) (body : Option getActionsResponse)

/-- What the outside world answers during one iteration.  `sleepFails` tells
whether `sleepWithContext` returns a non-nil error; that helper is defined
outside `streamer.go`, so its result is taken as an input.  `ctxDone` is
`some e` when `ctx.Done()` is closed at the final `select`, `e` being
`ctx.Err()`. -/
structure Round where
  fetch : Fetch
  sleepFails : Bool
  ctxDone : Option CtxError

/-- The local variables that survive an iteration.  `numWaitsSinceCatchup` is a
`uint`, taken to be 64 bits wide. -/
structure LoopState where
  globalSequenceLowerBound : Nat
  numWaitsSinceCatchup : Nat
deriving DecidableEq, Repr

/-- Observable actions of the goroutine: a query handed to `s.Client.Do`, the
20 second wait after a 429, the wait of the caught-up branch, and a batch sent
on the data channel. -/
inductive Event where
  | query (q : List (String × String))
  | rateLimitWait (wait : Int)
  | backoffWait (wait : Int)
  | emit (b : Batch)
deriving DecidableEq, Repr

/-- Whether the loop body is still iterating or has returned; `returned none`
stands for a `nil` error. -/
inductive LoopResult where
  | running
  | returned (err : Option StreamError)
deriving DecidableEq, Repr

/-- What has happened after some iterations. -/
structure Outcome where
  events : List Event
  state : LoopState
  result : LoopResult
deriving DecidableEq, Repr

/-- The `for _, act := range res.Actions` loop that fills `b`. -/
def collect (outOfRange : Float64 → Nat) :
    Batch → List getActionsResponseAction → Except SeqError Batch
  | b, [] => .ok b
  | b, act :: rest =>
    match getGlobalSequence outOfRange act with
    | .error e => .error e
    | .ok globalSequence =>
      let b1 : Batch :=
        if globalSequence > b.HeadGlobalSequence then
          { b with HeadGlobalSequence := globalSequence, HeadBlock := act.BlockNum }
        else b
      collect outOfRange { b1 with Actions := b1.Actions ++ [act.Act] } rest

/-- The wait of the caught-up branch for the already incremented counter:
`time.Duration(numWaitsSinceCatchup*numWaitsSinceCatchup) * base`. -/
def backoffDuration (s : Streamer) (numWaitsSinceCatchup : Nat) : Int :=
  let base : Int := if s.SleepBase < 10 * Millisecond then 1 * Second else s.SleepBase
  wrapInt64 (wrapInt64 ((numWaitsSinceCatchup * numWaitsSinceCatchup % 2 ^ 64 : Nat) : Int) * base)

/-- The update of the counter in the caught-up branch: `numWaitsSinceCatchup++`
on a `uint`, then the cap at 10. -/
def incrementWaits (numWaitsSinceCatchup : Nat) : Nat :=
  let n := (numWaitsSinceCatchup + 1) % 2 ^ 64
  if n > 10 then 10 else n

/-- One iteration of the `for` loop (lines 48 to 140 of `streamer.go`), in the
order of the source: build the query, perform the exchange, handle 429 and
the other statuses from 400 up, decode, fill the batch, then take the
caught-up branch, the progress branch or the out-of-order return. -/
def step (outOfRange : Float64 → Nat) (s : Streamer) (filters : List Filter)
    (st : LoopState) (r : Round) : Outcome :=
  let q := buildQuery s filters st.globalSequenceLowerBound
  match r.fetch with
  | .newRequestError => ⟨[], st, .returned (some .newRequest)⟩
  | .doError => ⟨[.query q], st, .returned (some .httpRequest)⟩
  | .response StatusCode body =>
    if StatusCode = 429 then
      let wait := wrapInt64 (20 * Second)
      ⟨[.query q, .rateLimitWait wait], st,
        if r.sleepFails then .returned (some .sleep) else .running⟩
    else if StatusCode ≥ 400 then
      ⟨[.query q], st, .returned (some (.httpStatus StatusCode))⟩
    else
      match body with
      | none => ⟨[.query q], st, .returned (some .decodeBody)⟩
      | some res =>
        match collect outOfRange ⟨0, 0, []⟩ res.Actions with
        | .error e => ⟨[.query q], st, .returned (some (.getGlobalSequence e))⟩
        | .ok b =>
          if b.HeadGlobalSequence = st.globalSequenceLowerBound ∨ res.Actions.length = 0 then
            let n := incrementWaits st.numWaitsSinceCatchup
            let wait := backoffDuration s n
            ⟨[.query q, .backoffWait wait], { st with numWaitsSinceCatchup := n },
              if r.sleepFails then .returned (some .sleep) else .running⟩
          else
            let st1 : LoopState := { st with numWaitsSinceCatchup := 0 }
            if b.HeadGlobalSequence > st.globalSequenceLowerBound then
              let st2 : LoopState := { st1 with globalSequenceLowerBound := b.HeadGlobalSequence }
              match r.ctxDone with
              | some e => ⟨[.query q], st2, .returned (some (.ctx e))⟩
              | none => ⟨[.query q, .emit b], st2, .running⟩
            else
              ⟨[.query q], st1,
                .returned (some (.outOfOrder b.HeadGlobalSequence st.globalSequenceLowerBound))⟩

/-- The loop, iterated over the rounds the outside world supplies.  It stops at
the first iteration that returns; when the rounds run out the loop is still
running. -/
def run (outOfRange : Float64 → Nat) (s : Streamer) (filters : List Filter) :
    LoopState → List Round → Outcome
  | st, [] => ⟨[], st, .running⟩
  | st, r :: rs =>
    let o := step outOfRange s filters st r
    match o.result with
    | .returned err => ⟨o.events, o.state, .returned err⟩
    | .running =>
      let o1 := run outOfRange s filters o.state rs
      ⟨o.events ++ o1.events, o1.state, o1.result⟩

/-- The goroutine of `Streamer.Start`: the loop from the initial values of its
variables, `globalSequenceLowerBound := from` (a `uint64`) and
`numWaitsSinceCatchup := 0`. -/
def Start (outOfRange : Float64 → Nat) (s : Streamer) («from» : Nat) (filters : List Filter)
    (rounds : List Round) : Outcome :=
  run outOfRange s filters ⟨«from», 0⟩ rounds

/-- The values sent on the data channel, in order. -/
def sent : List Event → List Batch
  | [] => []
  | .emit b :: es => b :: sent es
  | _ :: es => sent es

/-- The values sent on the error channel: `if err != nil { sendErr <- err }`. -/
def sentErr : LoopResult → List StreamError
  | .returned (some err) => [err]
  | _ => []

/-! ## Vocabulary of the specification -/

/-- A decimal digit character, `'0'` to `'9'`. -/
def isDecimalDigit (c : Char) : Prop := 48 ≤ c.toNat ∧ c.toNat ≤ 57

instance (c : Char) : Decidable (isDecimalDigit c) := by
  unfold isDecimalDigit; infer_instance

/-- The number a run of decimal digits denotes, most significant digit first. -/
def decimalValue (cs : List Char) : Nat :=
  cs.foldl (fun n c => 10 * n + (c.toNat - 48)) 0

/-- A string that is a base-10 unsigned 64-bit integer: non-empty, made of
decimal digits only (no sign, no blank, no separator), denoting at most
`2 ^ 64 - 1`. -/
def isBase10Uint64 (s : String) : Prop :=
  s ≠ "" ∧ (∀ c ∈ s.data, isDecimalDigit c) ∧ decimalValue s.data ≤ 2 ^ 64 - 1

instance (s : String) : Decidable (isBase10Uint64 s) := by
  unfold isBase10Uint64; infer_instance

/-- A decoded `global_sequence` that the specification calls undecodable:
neither a JSON string nor a JSON number, or a string that is not a base-10
unsigned 64-bit integer. -/
def badSequence : JsonAny → Prop
  | .string s => ¬ isBase10Uint64 s
  | .number _ => False
  | _ => True

/-- The cursor after a stretch of events: the head of the most recently
emitted batch, or `c` when the stretch emits nothing. -/
def lastHead (c : Nat) : List Event → Nat
  | [] => c
  | .emit b :: es => lastHead b.HeadGlobalSequence es
  | _ :: es => lastHead c es

/-- The body of a round that the loop decodes: the response is neither a 429
nor a status of 400 and above, and its body decodes. -/
def decodedPage (r : Round) : Option getActionsResponse :=
  match r.fetch with
  | .response status (some res) => if status ≠ 429 ∧ status < 400 then some res else none
  | _ => none

/-- A no-progress page at cursor `c`: a decoded page whose sequence numbers all
decode and which has zero actions or a computed head equal to `c`. -/
def isNoProgressPage (outOfRange : Float64 → Nat) (c : Nat) (r : Round) : Bool :=
  match decodedPage r with
  | some res =>
    match collect outOfRange ⟨0, 0, []⟩ res.Actions with
    | .ok b => res.Actions.isEmpty || b.HeadGlobalSequence == c
    | .error _ => false
  | none => false

/-- The head of a progress-producing page at cursor `c`: a decoded page whose
sequence numbers all decode and whose computed head is above `c`. -/
def progressHead (outOfRange : Float64 → Nat) (c : Nat) (r : Round) : Option Nat :=
  match decodedPage r with
  | some res =>
    match collect outOfRange ⟨0, 0, []⟩ res.Actions with
    | .ok b => if c < b.HeadGlobalSequence then some b.HeadGlobalSequence else none
    | .error _ => none
  | none => none

/-- The cursor and the number of no-progress pages seen since the last
progress-producing page (or since the start), after the given rounds, counting
on from cursor `c` and count `k`: a no-progress page adds one, a
progress-producing page moves the cursor to its head and resets the count, and
any other round (a 429 among them) changes neither. -/
def pagesSinceProgress (outOfRange : Float64 → Nat) : Nat → Nat → List Round → Nat × Nat
  | c, k, [] => (c, k)
  | c, k, r :: rs =>
    if isNoProgressPage outOfRange c r then pagesSinceProgress outOfRange c (k + 1) rs
    else
      match progressHead outOfRange c r with
      | some h => pagesSinceProgress outOfRange h 0 rs
      | none => pagesSinceProgress outOfRange c k rs

/-- Every query of a trace is the one built from the cursor current at that
point, `c` being the cursor at the start of the trace. -/
def queriesFollow (s : Streamer) (filters : List Filter) : Nat → List Event → Prop
  | _, [] => True
  | c, .query q :: es => q = buildQuery s filters c ∧ queriesFollow s filters c es
  | _, .emit b :: es => queriesFollow s filters b.HeadGlobalSequence es
  | c, _ :: es => queriesFollow s filters c es

/-- The effective base of the backoff: the configured `SleepBase`, or one
second when it is below ten milliseconds. -/
def effectiveBase (s : Streamer) : Int :=
  if s.SleepBase < 10 * Millisecond then 1 * Second else s.SleepBase

/-- A response the loop decodes: neither a 429 nor a status of 400 and above,
with a body that decodes to `res`. -/
def decodesTo (r : Round) (res : getActionsResponse) : Prop :=
  ∃ status : Int, r.fetch = .response status (some res) ∧ status ≠ 429 ∧ status < 400

/-! ## Data of the examples -/

/-- A configuration like the one the command-line listener builds. -/
def exampleStreamer : Streamer := ⟨"https://wax.greymass.com", 1000, 30 * Second⟩

/-- An action whose sequence number arrives as a decimal string. -/
def exampleAction (globalSequence blockNum : Nat) (payload : RawMessage) :
    getActionsResponseAction :=
  ⟨blockNum, .string (toString globalSequence), payload⟩

/-- A round in which the server answers 200 with the given actions, the wait
(if any) elapses and the context is not done. -/
def examplePage (acts : List getActionsResponseAction) : Round :=
  ⟨.response 200 (some ⟨acts⟩), false, none⟩

/-- A round like `examplePage` in which the context is cancelled by the time
of the final `select`. -/
def cancelledPage (acts : List getActionsResponseAction) : Round :=
  ⟨.response 200 (some ⟨acts⟩), false, some .canceled⟩

/-- A round in which the server answers 429 and the wait elapses. -/
def rateLimitedRound : Round := ⟨.response 429 none, false, none⟩

/-- The out-of-range conversion of one particular implementation. -/
def zeroOutOfRange : Float64 → Nat := fun _ => 0

/-! ## Lemmas on `strconv.ParseUint` -/

theorem cutoff_eq : cutoff = 1844674407370955162 := by decide

theorem maxUint64_eq : maxUint64 = 18446744073709551615 := by decide

theorem digitOf_of_digit (c : Char) (h : isDecimalDigit c) :
    digitOf c = some (c.toNat - 48) := by
  unfold isDecimalDigit at h
  unfold digitOf
  rw [if_pos h]

theorem digitOf_not_digit (c : Char) (h : ¬ isDecimalDigit c) :
    digitOf c = none ∨ ∃ d, digitOf c = some d ∧ 10 ≤ d := by
  unfold isDecimalDigit at h
  unfold digitOf
  rw [if_neg h]
  split
  · right; exact ⟨_, rfl, by omega⟩
  · left; rfl

theorem foldl_decimal_ge (cs : List Char) (a : Nat) :
    a ≤ cs.foldl (fun n c => 10 * n + (c.toNat - 48)) a := by
  induction cs generalizing a with
  | nil => simp
  | cons c cs ih =>
    simp only [List.foldl_cons]
    exact le_trans (by omega) (ih _)

/-- The loop of `ParseUint` succeeds exactly on runs of digits whose value, read
on from the accumulator, is a `uint64`; it then returns that value. -/
theorem parseUintLoop_ok_iff (cs : List Char) (n m : Nat) (hn : n ≤ 2 ^ 64 - 1) :
    parseUintLoop n cs = .ok m ↔
      (∀ c ∈ cs, isDecimalDigit c) ∧
        cs.foldl (fun n c => 10 * n + (c.toNat - 48)) n = m ∧ m ≤ 2 ^ 64 - 1 := by
  induction cs generalizing n with
  | nil =>
    simp only [parseUintLoop, Except.ok.injEq, List.not_mem_nil, false_implies, implies_true,
      List.foldl_nil, true_and]
    constructor
    · intro h; subst h; exact ⟨rfl, hn⟩
    · intro h; exact h.1
  | cons c cs ih =>
    by_cases hc : isDecimalDigit c
    · have hd : c.toNat - 48 < 10 := by unfold isDecimalDigit at hc; omega
      have hge := foldl_decimal_ge cs (10 * n + (c.toNat - 48))
      simp only [parseUintLoop, digitOf_of_digit c hc, cutoff_eq, maxUint64_eq, List.foldl_cons,
        List.mem_cons, forall_eq_or_imp, hc, true_and]
      rw [if_neg (by omega)]
      by_cases hcut : n ≥ 1844674407370955162
      · rw [if_pos hcut]
        constructor
        · intro h; cases h
        · rintro ⟨_, h1, h2⟩; omega
      · rw [if_neg hcut]
        have h10 : n * 10 % 2 ^ 64 = n * 10 := Nat.mod_eq_of_lt (by omega)
        rw [h10]
        by_cases hov : n * 10 + (c.toNat - 48) < 2 ^ 64
        · have h1 : (n * 10 + (c.toNat - 48)) % 2 ^ 64 = n * 10 + (c.toNat - 48) :=
            Nat.mod_eq_of_lt hov
          rw [h1, if_neg (by omega), ih (n * 10 + (c.toNat - 48)) (by omega), Nat.mul_comm n 10]
        · have h1 : (n * 10 + (c.toNat - 48)) % 2 ^ 64 < n * 10 := by omega
          rw [if_pos (Or.inl h1)]
          constructor
          · intro h; cases h
          · rintro ⟨_, h1, h2⟩; omega
    · constructor
      · intro h
        rcases digitOf_not_digit c hc with h0 | ⟨d, h0, hd⟩
        · simp [parseUintLoop, h0] at h
        · simp [parseUintLoop, h0, hd] at h
      · rintro ⟨h, _⟩
        exact absurd (h c (List.mem_cons_self c cs)) hc

/-- The model of `ParseUint` accepts exactly the base-10 unsigned 64-bit integers and returns
the number they denote. -/
theorem parseUint_ok_iff (s : String) (m : Nat) :
    parseUint s = .ok m ↔ isBase10Uint64 s ∧ decimalValue s.data = m := by
  unfold parseUint isBase10Uint64 decimalValue
  by_cases hs : s = ""
  · simp [hs]
  · rw [if_neg hs, parseUintLoop_ok_iff s.data 0 m (by omega)]
    constructor
    · rintro ⟨h1, h2, h3⟩; exact ⟨⟨hs, h1, by omega⟩, h2⟩
    · rintro ⟨⟨_, h1, h3⟩, h2⟩; exact ⟨h1, h2, by omega⟩

theorem parseUint_error_iff (s : String) :
    (∃ e, parseUint s = .error e) ↔ ¬ isBase10Uint64 s := by
  constructor
  · rintro ⟨e, he⟩ hv
    have := (parseUint_ok_iff s (decimalValue s.data)).2 ⟨hv, rfl⟩
    rw [he] at this; cases this
  · intro hv
    cases h : parseUint s with
    | error e => exact ⟨e, rfl⟩
    | ok m => exact absurd ((parseUint_ok_iff s m).1 h).1 hv

theorem digitChar_toNat (m : Nat) (hm : m < 10) : (Nat.digitChar m).toNat = 48 + m := by
  interval_cases m <;> rfl

theorem decimalValue_snoc (ds : List Char) (c : Char) :
    decimalValue (ds ++ [c]) = 10 * decimalValue ds + (c.toNat - 48) := by
  simp [decimalValue, List.foldl_append]

/-- With enough fuel, `Nat.toDigitsCore` at base 10 puts in front of the
accumulator a non-empty run of digits denoting `n`. -/
theorem toDigitsCore_decimal (fuel n : Nat) (acc : List Char) (hfuel : n < fuel) :
    ∃ ds, (∀ c ∈ ds, isDecimalDigit c) ∧ decimalValue ds = n ∧ ds ≠ [] ∧
      Nat.toDigitsCore 10 fuel n acc = ds ++ acc := by
  induction fuel generalizing n acc with
  | zero => omega
  | succ k ih =>
    have hmod : n % 10 < 10 := Nat.mod_lt _ (by omega)
    have hchar := digitChar_toNat (n % 10) hmod
    have hdig : isDecimalDigit (Nat.digitChar (n % 10)) := by
      unfold isDecimalDigit; omega
    simp only [Nat.toDigitsCore]
    by_cases hz : n / 10 = 0
    · rw [if_pos hz]
      refine ⟨[Nat.digitChar (n % 10)], ?_, ?_, by simp, rfl⟩
      · intro c hc
        rw [List.mem_singleton] at hc
        rw [hc]; exact hdig
      · simp only [decimalValue, List.foldl_cons, List.foldl_nil, hchar]
        omega
    · rw [if_neg hz]
      obtain ⟨ds, hall, hval, _, hds⟩ := ih (n / 10) (Nat.digitChar (n % 10) :: acc) (by omega)
      refine ⟨ds ++ [Nat.digitChar (n % 10)], ?_, ?_, by simp, by rw [hds]; simp⟩
      · intro c hc
        rcases List.mem_append.1 hc with h | h
        · exact hall c h
        · rw [List.mem_singleton] at h
          rw [h]; exact hdig
      · rw [decimalValue_snoc, hval, hchar]
        omega

theorem toString_data (n : Nat) : (toString n).data = Nat.toDigits 10 n := rfl

/-- The decimal string of a `uint64` is read back by `ParseUint`. -/
theorem parseUint_toString (n : Nat) (hn : n < 2 ^ 64) : parseUint (toString n) = .ok n := by
  obtain ⟨ds, hall, hval, hne, hds⟩ := toDigitsCore_decimal (n + 1) n [] (by omega)
  rw [List.append_nil] at hds
  have hdata : (toString n).data = ds := by rw [toString_data]; exact hds
  rw [parseUint_ok_iff]
  refine ⟨⟨?_, ?_, ?_⟩, ?_⟩
  · intro h
    rw [h] at hdata
    exact hne hdata.symm
  · rw [hdata]; exact hall
  · rw [hdata, hval]; omega
  · rw [hdata, hval]

/-! ## Lemmas on the float conversion -/

theorem excessBits_small (n : Nat) (hn : n < 2 ^ 53) : excessBits n n = 0 := by
  cases n with
  | zero => rfl
  | succ m => unfold excessBits; rw [if_pos hn]

theorem exact_of_le (n : Nat) (hn : n ≤ 2 ^ 53) : n % 2 ^ excessBits n n = 0 := by
  rcases Nat.lt_or_eq_of_le hn with h | h
  · rw [excessBits_small n h, pow_zero]; exact Nat.mod_one n
  · subst h; decide

/-- A natural number without bits below the 53 leading ones goes through
`float64` and back unchanged. -/
theorem toUint64_decodeNumber (outOfRange : Float64 → Nat) (n : Nat) (hn : n < 2 ^ 64)
    (h : n % 2 ^ excessBits n n = 0) : toUint64 outOfRange (decodeNumber n) = n := by
  have hpos : 0 < 2 ^ excessBits n n := Nat.two_pow_pos _
  have hq : n / 2 ^ excessBits n n * 2 ^ excessBits n n = n :=
    Nat.div_mul_cancel (Nat.dvd_of_mod_eq_zero h)
  have htr : (decodeNumber n).trunc = (n : Int) := by
    unfold Float64.trunc decodeNumber
    simp only [h, Nat.mul_zero, Nat.not_lt_zero, decide_False, Bool.false_or]
    have hne : ¬ (0 = 2 ^ excessBits n n) := by omega
    simp [hne, hq]
  unfold toUint64
  rw [htr, if_pos ⟨by omega, by exact_mod_cast hn⟩]
  simp

theorem getGlobalSequence_string (outOfRange : Float64 → Nat) (blk : Nat) (s : String)
    (payload : RawMessage) :
    getGlobalSequence outOfRange ⟨blk, .string s, payload⟩ =
      match parseUint s with
      | .error e => .error (.parse e)
      | .ok g => .ok g := rfl

/-- Results of `getGlobalSequence` are `uint64` values. -/
theorem getGlobalSequence_lt (outOfRange : Float64 → Nat) (act : getActionsResponseAction)
    (g : Nat) (h : getGlobalSequence outOfRange act = .ok g) : g < 2 ^ 64 := by
  unfold getGlobalSequence at h
  split at h
  · split at h
    · cases h
    · rename_i m hm
      cases h
      have := ((parseUint_ok_iff _ _).1 hm)
      have h2 := this.1.2.2
      rw [this.2] at h2
      omega
  · cases h
    unfold toUint64
    split
    · rename_i hr; omega
    · exact Nat.mod_lt _ (by norm_num)
  · cases h

/-! ## One iteration, case by case -/

section StepCases

variable (outOfRange : Float64 → Nat) (s : Streamer) (filters : List Filter)
  (st : LoopState) (r : Round)

theorem step_newRequestError (h : r.fetch = .newRequestError) :
    step outOfRange s filters st r = ⟨[], st, .returned (some .newRequest)⟩ := by
  unfold step; rw [h]

theorem step_doError (h : r.fetch = .doError) :
    step outOfRange s filters st r =
      ⟨[.query (buildQuery s filters st.globalSequenceLowerBound)], st,
        .returned (some .httpRequest)⟩ := by
  unfold step; rw [h]

theorem step_rateLimited (body : Option getActionsResponse) (h : r.fetch = .response 429 body) :
    step outOfRange s filters st r =
      ⟨[.query (buildQuery s filters st.globalSequenceLowerBound),
          .rateLimitWait (wrapInt64 (20 * Second))], st,
        if r.sleepFails then .returned (some .sleep) else .running⟩ := by
  unfold step; rw [h]; simp

theorem step_httpStatus (status : Int) (body : Option getActionsResponse)
    (h : r.fetch = .response status body) (h1 : status ≠ 429) (h2 : 400 ≤ status) :
    step outOfRange s filters st r =
      ⟨[.query (buildQuery s filters st.globalSequenceLowerBound)], st,
        .returned (some (.httpStatus status))⟩ := by
  unfold step; rw [h]; simp [h1, h2]

theorem step_decodeBody (status : Int) (h : r.fetch = .response status none) (h1 : status ≠ 429)
    (h2 : status < 400) :
    step outOfRange s filters st r =
      ⟨[.query (buildQuery s filters st.globalSequenceLowerBound)], st,
        .returned (some .decodeBody)⟩ := by
  have h3 : ¬ (400 ≤ status) := by omega
  unfold step; rw [h]; simp [h1, h3]

theorem step_seqError (res : getActionsResponse) (e : SeqError) (h : decodesTo r res)
    (hc : collect outOfRange ⟨0, 0, []⟩ res.Actions = .error e) :
    step outOfRange s filters st r =
      ⟨[.query (buildQuery s filters st.globalSequenceLowerBound)], st,
        .returned (some (.getGlobalSequence e))⟩ := by
  obtain ⟨status, h, h1, h2⟩ := h
  have h3 : ¬ (400 ≤ status) := by omega
  unfold step; rw [h]; simp [h1, h3, hc]

theorem step_noProgress (res : getActionsResponse) (b : Batch) (h : decodesTo r res)
    (hc : collect outOfRange ⟨0, 0, []⟩ res.Actions = .ok b)
    (hn : b.HeadGlobalSequence = st.globalSequenceLowerBound ∨ res.Actions = []) :
    step outOfRange s filters st r =
      ⟨[.query (buildQuery s filters st.globalSequenceLowerBound),
          .backoffWait (backoffDuration s (incrementWaits st.numWaitsSinceCatchup))],
        ⟨st.globalSequenceLowerBound, incrementWaits st.numWaitsSinceCatchup⟩,
        if r.sleepFails then .returned (some .sleep) else .running⟩ := by
  obtain ⟨status, h, h1, h2⟩ := h
  have h3 : ¬ (400 ≤ status) := by omega
  unfold step; rw [h]; simp [h1, h3, hc, hn]

theorem collect_nil (b : Batch) : collect outOfRange b [] = .ok b := rfl

theorem step_progress (res : getActionsResponse) (b : Batch) (h : decodesTo r res)
    (hc : collect outOfRange ⟨0, 0, []⟩ res.Actions = .ok b)
    (hp : st.globalSequenceLowerBound < b.HeadGlobalSequence) :
    step outOfRange s filters st r =
      match r.ctxDone with
      | some e =>
        ⟨[.query (buildQuery s filters st.globalSequenceLowerBound)],
          ⟨b.HeadGlobalSequence, 0⟩, .returned (some (.ctx e))⟩
      | none =>
        ⟨[.query (buildQuery s filters st.globalSequenceLowerBound), .emit b],
          ⟨b.HeadGlobalSequence, 0⟩, .running⟩ := by
  obtain ⟨status, h, h1, h2⟩ := h
  have hne : ¬ (b.HeadGlobalSequence = st.globalSequenceLowerBound ∨ res.Actions = []) := by
    rintro (hn | hn)
    · omega
    · rw [hn, collect_nil] at hc
      cases hc
      simp at hp
  have h3 : ¬ (400 ≤ status) := by omega
  unfold step; rw [h]; simp [h1, h3, hc, hne, hp]

theorem step_outOfOrder (res : getActionsResponse) (b : Batch) (h : decodesTo r res)
    (hc : collect outOfRange ⟨0, 0, []⟩ res.Actions = .ok b) (hne : res.Actions ≠ [])
    (hlt : b.HeadGlobalSequence < st.globalSequenceLowerBound) :
    step outOfRange s filters st r =
      ⟨[.query (buildQuery s filters st.globalSequenceLowerBound)],
        ⟨st.globalSequenceLowerBound, 0⟩,
        .returned (some (.outOfOrder b.HeadGlobalSequence st.globalSequenceLowerBound))⟩ := by
  obtain ⟨status, h, h1, h2⟩ := h
  have hn : ¬ (b.HeadGlobalSequence = st.globalSequenceLowerBound ∨ res.Actions = []) := by
    rintro (hn | hn)
    · omega
    · exact hne hn
  have hgt : ¬ (b.HeadGlobalSequence > st.globalSequenceLowerBound) := by omega
  have h3 : ¬ (400 ≤ status) := by omega
  unfold step; rw [h]; simp [h1, h3, hc, hn, hgt]

end StepCases

/-! ## The batch built from a page -/

/-- What the loop over the actions leaves in `b`: the payloads appended in
order, a head that bounds every sequence number of the page, and either the
head and block it started with or those of the first action that reaches the
final head. -/
theorem collect_spec (outOfRange : Float64 → Nat) (acts : List getActionsResponseAction) :
    ∀ b0 b : Batch, collect outOfRange b0 acts = .ok b →
      b.Actions = b0.Actions ++ acts.map (fun a => a.Act) ∧
      b0.HeadGlobalSequence ≤ b.HeadGlobalSequence ∧
      (∀ a ∈ acts, ∃ g, getGlobalSequence outOfRange a = .ok g ∧ g ≤ b.HeadGlobalSequence) ∧
      ((b.HeadGlobalSequence = b0.HeadGlobalSequence ∧ b.HeadBlock = b0.HeadBlock) ∨
        (b0.HeadGlobalSequence < b.HeadGlobalSequence ∧
          ∃ pre a post, acts = pre ++ a :: post ∧
            getGlobalSequence outOfRange a = .ok b.HeadGlobalSequence ∧
            b.HeadBlock = a.BlockNum ∧
            ∀ x ∈ pre, ∀ g, getGlobalSequence outOfRange x = .ok g →
              g < b.HeadGlobalSequence)) := by
  induction acts with
  | nil =>
    intro b0 b h
    rw [collect_nil] at h
    cases h
    simp
  | cons x rest ih =>
    intro b0 b h
    unfold collect at h
    cases hx : getGlobalSequence outOfRange x with
    | error e => rw [hx] at h; cases h
    | ok g =>
      rw [hx] at h
      simp only at h
      by_cases hg : g > b0.HeadGlobalSequence
      · rw [if_pos hg] at h
        obtain ⟨h1, h2, h3, h4⟩ := ih _ b h
        simp only at h1 h2 h4
        refine ⟨by rw [h1]; simp, by omega, ?_, ?_⟩
        · intro a ha
          rcases List.mem_cons.1 ha with ha | ha
          · subst ha; exact ⟨g, hx, h2⟩
          · exact h3 a ha
        · right
          refine ⟨by omega, ?_⟩
          rcases h4 with ⟨h5, h6⟩ | ⟨h5, pre, a, post, h6, h7, h8, h9⟩
          · exact ⟨[], x, rest, rfl, by rw [h5]; exact hx, h6, by simp⟩
          · refine ⟨x :: pre, a, post, by rw [h6]; rfl, h7, h8, ?_⟩
            intro y hy g1 hg1
            rcases List.mem_cons.1 hy with hy | hy
            · subst hy
              rw [hx] at hg1
              cases hg1
              exact h5
            · exact h9 y hy g1 hg1
      · rw [if_neg hg] at h
        obtain ⟨h1, h2, h3, h4⟩ := ih _ b h
        simp only at h1 h2 h4
        refine ⟨by rw [h1]; simp, h2, ?_, ?_⟩
        · intro a ha
          rcases List.mem_cons.1 ha with ha | ha
          · subst ha; exact ⟨g, hx, by omega⟩
          · exact h3 a ha
        · rcases h4 with ⟨h5, h6⟩ | ⟨h5, pre, a, post, h6, h7, h8, h9⟩
          · exact Or.inl ⟨h5, h6⟩
          · right
            refine ⟨h5, x :: pre, a, post, by rw [h6]; rfl, h7, h8, ?_⟩
            intro y hy g1 hg1
            rcases List.mem_cons.1 hy with hy | hy
            · subst hy
              rw [hx] at hg1
              cases hg1
              omega
            · exact h9 y hy g1 hg1

/-- A sequence number that `getGlobalSequence` rejects, as the specification
describes it. -/
theorem badSequence_iff_error (outOfRange : Float64 → Nat)
    (act : getActionsResponseAction) :
    (∃ e, getGlobalSequence outOfRange act = .error e) ↔ badSequence act.GlobalSequence := by
  obtain ⟨blk, v, payload⟩ := act
  cases v with
  | string s =>
    simp only [badSequence, ← parseUint_error_iff, getGlobalSequence_string]
    cases parseUint s <;> simp
  | number f => simp [badSequence, getGlobalSequence]
  | null => simp [badSequence, getGlobalSequence]
  | bool b => simp [badSequence, getGlobalSequence]
  | array xs => simp [badSequence, getGlobalSequence]
  | object kv => simp [badSequence, getGlobalSequence]

/-- One undecodable sequence number makes the whole loop over the actions fail. -/
theorem collect_error_of_bad (outOfRange : Float64 → Nat)
    (acts : List getActionsResponseAction) :
    ∀ b0 : Batch, (∃ a ∈ acts, badSequence a.GlobalSequence) →
      ∃ e, collect outOfRange b0 acts = .error e := by
  induction acts with
  | nil => rintro b0 ⟨a, ha, _⟩; cases ha
  | cons x rest ih =>
    rintro b0 ⟨a, ha, hbad⟩
    unfold collect
    cases hx : getGlobalSequence outOfRange x with
    | error e => exact ⟨e, rfl⟩
    | ok g =>
      simp only
      rcases List.mem_cons.1 ha with ha | ha
      · subst ha
        obtain ⟨e, he⟩ := (badSequence_iff_error outOfRange a).2 hbad
        rw [hx] at he; cases he
      · exact ih _ ⟨a, ha, hbad⟩

/-! ## Classification of rounds and the shape of one iteration -/

theorem round_cases (r : Round) :
    r.fetch = .newRequestError ∨ r.fetch = .doError ∨
      (∃ body, r.fetch = .response 429 body) ∨
      (∃ status body, r.fetch = .response status body ∧ status ≠ 429 ∧ 400 ≤ status) ∨
      (∃ status, r.fetch = .response status none ∧ status ≠ 429 ∧ status < 400) ∨
      (∃ res, decodesTo r res) := by
  cases h : r.fetch with
  | newRequestError => simp
  | doError => simp
  | response status body =>
    by_cases h1 : status = 429
    · subst h1; simp
    · by_cases h2 : 400 ≤ status
      · right; right; right; left
        exact ⟨status, body, rfl, h1, h2⟩
      · cases body with
        | none =>
          right; right; right; right; left
          exact ⟨status, rfl, h1, by omega⟩
        | some res =>
          right; right; right; right; right
          exact ⟨res, status, h, h1, by omega⟩

/-- The five shapes an iteration can take. -/
theorem step_shape (outOfRange : Float64 → Nat) (s : Streamer) (filters : List Filter)
    (st : LoopState) (r : Round) :
    (((step outOfRange s filters st r).events = [] ∨
        (step outOfRange s filters st r).events =
          [.query (buildQuery s filters st.globalSequenceLowerBound)]) ∧
      ∃ err, (step outOfRange s filters st r).result = .returned err) ∨
    ((step outOfRange s filters st r).events =
        [.query (buildQuery s filters st.globalSequenceLowerBound),
          .rateLimitWait (wrapInt64 (20 * Second))] ∧
      (step outOfRange s filters st r).state = st) ∨
    ((step outOfRange s filters st r).events =
        [.query (buildQuery s filters st.globalSequenceLowerBound),
          .backoffWait (backoffDuration s (incrementWaits st.numWaitsSinceCatchup))] ∧
      (step outOfRange s filters st r).state =
        ⟨st.globalSequenceLowerBound, incrementWaits st.numWaitsSinceCatchup⟩) ∨
    (∃ b, (step outOfRange s filters st r).events =
        [.query (buildQuery s filters st.globalSequenceLowerBound), .emit b] ∧
      st.globalSequenceLowerBound < b.HeadGlobalSequence ∧
      (step outOfRange s filters st r).state = ⟨b.HeadGlobalSequence, 0⟩ ∧
      (step outOfRange s filters st r).result = .running) := by
  rcases round_cases r with h | h | ⟨body, h⟩ | ⟨status, body, h, h1, h2⟩ | ⟨status, h, h1, h2⟩ |
    ⟨res, h⟩
  · rw [step_newRequestError outOfRange s filters st r h]; simp
  · rw [step_doError outOfRange s filters st r h]; simp
  · rw [step_rateLimited outOfRange s filters st r body h]; simp
  · rw [step_httpStatus outOfRange s filters st r status body h h1 h2]; simp
  · rw [step_decodeBody outOfRange s filters st r status h h1 h2]; simp
  · cases hc : collect outOfRange ⟨0, 0, []⟩ res.Actions with
    | error e => rw [step_seqError outOfRange s filters st r res e h hc]; simp
    | ok b =>
      by_cases hn : b.HeadGlobalSequence = st.globalSequenceLowerBound ∨ res.Actions = []
      · rw [step_noProgress outOfRange s filters st r res b h hc hn]; simp
      · rw [not_or] at hn
        by_cases hp : st.globalSequenceLowerBound < b.HeadGlobalSequence
        · rw [step_progress outOfRange s filters st r res b h hc hp]
          cases r.ctxDone with
          | some e => simp
          | none =>
            right; right; right
            exact ⟨b, rfl, hp, rfl, rfl⟩
        · rw [step_outOfOrder outOfRange s filters st r res b h hc hn.2
            (by have := hn.1; omega)]
          simp

/-! ## The loop over several rounds -/

section Run

variable (outOfRange : Float64 → Nat) (s : Streamer) (filters : List Filter)

theorem run_nil (st : LoopState) : run outOfRange s filters st [] = ⟨[], st, .running⟩ := rfl

theorem run_cons_returned (st : LoopState) (r : Round) (rs : List Round) (err : Option StreamError)
    (h : (step outOfRange s filters st r).result = .returned err) :
    run outOfRange s filters st (r :: rs) = step outOfRange s filters st r := by
  unfold run
  simp only [h]
  rw [← h]

theorem run_cons_running (st : LoopState) (r : Round) (rs : List Round)
    (h : (step outOfRange s filters st r).result = .running) :
    run outOfRange s filters st (r :: rs) =
      ⟨(step outOfRange s filters st r).events ++
          (run outOfRange s filters (step outOfRange s filters st r).state rs).events,
        (run outOfRange s filters (step outOfRange s filters st r).state rs).state,
        (run outOfRange s filters (step outOfRange s filters st r).state rs).result⟩ := by
  conv_lhs => unfold run
  simp only [h]

/-- Rounds after a prefix that leaves the loop running continue from the state
the prefix reached. -/
theorem run_append (pre post : List Round) : ∀ st : LoopState,
    (run outOfRange s filters st pre).result = .running →
    run outOfRange s filters st (pre ++ post) =
      ⟨(run outOfRange s filters st pre).events ++
          (run outOfRange s filters (run outOfRange s filters st pre).state post).events,
        (run outOfRange s filters (run outOfRange s filters st pre).state post).state,
        (run outOfRange s filters (run outOfRange s filters st pre).state post).result⟩ := by
  induction pre with
  | nil => intro st _; simp [run_nil]
  | cons r rs ih =>
    intro st h
    cases hr : (step outOfRange s filters st r).result with
    | returned err =>
      rw [run_cons_returned outOfRange s filters st r rs err hr, hr] at h
      cases h
    | running =>
      rw [run_cons_running outOfRange s filters st r rs hr] at h
      simp only at h
      rw [List.cons_append, run_cons_running outOfRange s filters st r (rs ++ post) hr,
        ih _ h, run_cons_running outOfRange s filters st r rs hr]
      simp

end Run

/-! ## Traces -/

theorem sent_append (a b : List Event) : sent (a ++ b) = sent a ++ sent b := by
  induction a with
  | nil => rfl
  | cons e es ih => cases e <;> simp [sent, ih]

theorem lastHead_append (a b : List Event) : ∀ c, lastHead c (a ++ b) = lastHead (lastHead c a) b := by
  induction a with
  | nil => intro c; rfl
  | cons e es ih => intro c; cases e <;> simp [lastHead, ih]

theorem lastHead_of_sent_nil (a : List Event) : ∀ c, sent a = [] → lastHead c a = c := by
  induction a with
  | nil => intro c _; rfl
  | cons e es ih => intro c h; cases e <;> simp_all [lastHead, sent]

theorem queriesFollow_append (s : Streamer) (filters : List Filter) (a b : List Event) :
    ∀ c, queriesFollow s filters c (a ++ b) ↔
      queriesFollow s filters c a ∧ queriesFollow s filters (lastHead c a) b := by
  induction a with
  | nil => intro c; simp [queriesFollow, lastHead]
  | cons e es ih => intro c; cases e <;> simp [queriesFollow, lastHead, ih, and_assoc]

/-- In a trace whose queries follow the cursor, a query is the one built from
the head of the last batch emitted before it. -/
theorem queriesFollow_split (s : Streamer) (filters : List Filter) (c : Nat)
    (pre post : List Event) (q : List (String × String))
    (h : queriesFollow s filters c (pre ++ .query q :: post)) :
    q = buildQuery s filters (lastHead c pre) := by
  rw [queriesFollow_append] at h
  exact h.2.1

theorem incrementWaits_of_min (n k : Nat) (h : n = min 10 k) :
    incrementWaits n = min 10 (k + 1) := by
  unfold incrementWaits
  have h1 : (n + 1) % 2 ^ 64 = n + 1 := Nat.mod_eq_of_lt (by omega)
  simp only [h1]
  split <;> omega

section RunTraces

variable (outOfRange : Float64 → Nat) (s : Streamer) (filters : List Filter)

/-- The heads of the emitted batches increase strictly, starting above the
cursor the loop starts from. -/
theorem run_heads_chain (rounds : List Round) : ∀ st : LoopState,
    List.Chain (fun a b => a < b) st.globalSequenceLowerBound
      ((sent (run outOfRange s filters st rounds).events).map (fun b => b.HeadGlobalSequence)) := by
  induction rounds with
  | nil => intro st; simp [run_nil, sent]
  | cons r rs ih =>
    intro st
    cases hr : (step outOfRange s filters st r).result with
    | returned err =>
      rw [run_cons_returned outOfRange s filters st r rs err hr]
      rcases step_shape outOfRange s filters st r with ⟨h | h, _⟩ | ⟨h, _⟩ | ⟨h, _⟩ |
        ⟨b, _, _, _, h⟩
      · rw [h]; simp [sent]
      · rw [h]; simp [sent]
      · rw [h]; simp [sent]
      · rw [h]; simp [sent]
      · rw [hr] at h; cases h
    | running =>
      rw [run_cons_running outOfRange s filters st r rs hr]
      simp only [sent_append, List.map_append]
      have := ih (step outOfRange s filters st r).state
      rcases step_shape outOfRange s filters st r with ⟨_, err, h⟩ | ⟨h, hs⟩ | ⟨h, hs⟩ |
        ⟨b, h, hlt, hs, _⟩
      · rw [hr] at h; cases h
      · rw [hs] at this; rw [h, hs]; simpa [sent] using this
      · rw [hs] at this; rw [h, hs]; simpa [sent] using this
      · rw [hs] at this; rw [h, hs]
        simp only [sent, List.map_cons, List.map_nil, List.singleton_append]
        exact List.Chain.cons hlt this

/-- Every query of a run is built from the cursor current when it is issued. -/
theorem run_queriesFollow (rounds : List Round) : ∀ st : LoopState,
    queriesFollow s filters st.globalSequenceLowerBound
      (run outOfRange s filters st rounds).events := by
  induction rounds with
  | nil => intro st; simp [run_nil, queriesFollow]
  | cons r rs ih =>
    intro st
    cases hr : (step outOfRange s filters st r).result with
    | returned err =>
      rw [run_cons_returned outOfRange s filters st r rs err hr]
      rcases step_shape outOfRange s filters st r with ⟨h | h, _⟩ | ⟨h, _⟩ | ⟨h, _⟩ |
        ⟨b, _, _, _, h⟩
      · rw [h]; simp [queriesFollow]
      · rw [h]; simp [queriesFollow]
      · rw [h]; simp [queriesFollow]
      · rw [h]; simp [queriesFollow]
      · rw [hr] at h; cases h
    | running =>
      rw [run_cons_running outOfRange s filters st r rs hr]
      simp only [queriesFollow_append]
      have := ih (step outOfRange s filters st r).state
      rcases step_shape outOfRange s filters st r with ⟨_, err, h⟩ | ⟨h, hs⟩ | ⟨h, hs⟩ |
        ⟨b, h, hlt, hs, _⟩
      · rw [hr] at h; cases h
      · rw [hs] at this; rw [h, hs]; simpa [queriesFollow, lastHead] using this
      · rw [hs] at this; rw [h, hs]; simpa [queriesFollow, lastHead] using this
      · rw [hs] at this; rw [h, hs]; simpa [queriesFollow, lastHead] using this

/-- The counter of caught-up waits never exceeds 10 once it is at most 10. -/
theorem run_counter_le (rounds : List Round) : ∀ st : LoopState,
    st.numWaitsSinceCatchup ≤ 10 →
    (run outOfRange s filters st rounds).state.numWaitsSinceCatchup ≤ 10 := by
  induction rounds with
  | nil => intro st h; simpa [run_nil] using h
  | cons r rs ih =>
    intro st hst
    have hinc : incrementWaits st.numWaitsSinceCatchup ≤ 10 := by
      unfold incrementWaits; simp only; split <;> omega
    cases hr : (step outOfRange s filters st r).result with
    | returned err =>
      rw [run_cons_returned outOfRange s filters st r rs err hr]
      rcases round_cases r with h | h | ⟨body, h⟩ | ⟨status, body, h, h1, h2⟩ |
        ⟨status, h, h1, h2⟩ | ⟨res, h⟩
      · rw [step_newRequestError outOfRange s filters st r h]; exact hst
      · rw [step_doError outOfRange s filters st r h]; exact hst
      · rw [step_rateLimited outOfRange s filters st r body h]; exact hst
      · rw [step_httpStatus outOfRange s filters st r status body h h1 h2]; exact hst
      · rw [step_decodeBody outOfRange s filters st r status h h1 h2]; exact hst
      · cases hc : collect outOfRange ⟨0, 0, []⟩ res.Actions with
        | error e => rw [step_seqError outOfRange s filters st r res e h hc]; exact hst
        | ok b =>
          by_cases hn : b.HeadGlobalSequence = st.globalSequenceLowerBound ∨ res.Actions = []
          · rw [step_noProgress outOfRange s filters st r res b h hc hn]; exact hinc
          · rw [not_or] at hn
            by_cases hp : st.globalSequenceLowerBound < b.HeadGlobalSequence
            · rw [step_progress outOfRange s filters st r res b h hc hp]
              cases r.ctxDone <;> simp
            · rw [step_outOfOrder outOfRange s filters st r res b h hc hn.2
                (by have := hn.1; omega)]
              simp
    | running =>
      rw [run_cons_running outOfRange s filters st r rs hr]
      apply ih
      rcases step_shape outOfRange s filters st r with ⟨_, err, h⟩ | ⟨h, hs⟩ | ⟨h, hs⟩ |
        ⟨b, h, hlt, hs, _⟩
      · rw [hr] at h; cases h
      · rw [hs]; exact hst
      · rw [hs]; exact hinc
      · rw [hs]; simp

end RunTraces

/-! ## Claims on the loop -/

theorem lookup_buildQuery (s : Streamer) (filters : List Filter) (c : Nat) :
    List.lookup "global_sequence" (buildQuery s filters c) = some (rangeParam c) := by
  unfold buildQuery
  simp only [List.cons_append, List.nil_append]
  rw [List.lookup_cons, List.lookup_cons, List.lookup_cons]
  rfl

theorem rangeParam_eq (c : Nat) :
    rangeParam c = toString ((c + 1) % 2 ^ 64) ++ "-" ++ "9223372036854775807" := by
  unfold rangeParam
  have : toString globalSequenceUpperBound = "9223372036854775807" := by decide
  rw [this]

/-- C1: for every starting cursor and every sequence of rounds, the heads of
the emitted batches form a strictly increasing chain that starts strictly
above the starting cursor. -/
theorem emitted_heads_strictly_increasing (outOfRange : Float64 → Nat) (s : Streamer)
    (start : Nat) (filters : List Filter) (rounds : List Round) :
    List.Chain (fun a b => a < b) start
      ((sent (Start outOfRange s start filters rounds).events).map
        (fun b => b.HeadGlobalSequence)) :=
  run_heads_chain outOfRange s filters rounds ⟨start, 0⟩

/-- C2: when an iteration on a decoded page emits a batch, the payloads of the
batch are those of the page in order, its head bounds every sequence number of
the page and is the sequence number of one of its actions, and its head block
is the block of the first action of the page that carries the head. -/
theorem emitted_batch_contents (outOfRange : Float64 → Nat) (s : Streamer)
    (filters : List Filter) (st : LoopState) (r : Round) (res : getActionsResponse) (b : Batch)
    (hpage : decodesTo r res)
    (hemit : Event.emit b ∈ (step outOfRange s filters st r).events) :
    b.Actions = res.Actions.map (fun a => a.Act) ∧
      b.Actions.length = res.Actions.length ∧
      (∀ a ∈ res.Actions, ∃ g, getGlobalSequence outOfRange a = .ok g ∧
        g ≤ b.HeadGlobalSequence) ∧
      ∃ pre a post, res.Actions = pre ++ a :: post ∧
        getGlobalSequence outOfRange a = .ok b.HeadGlobalSequence ∧
        (∀ x ∈ pre, getGlobalSequence outOfRange x ≠ .ok b.HeadGlobalSequence) ∧
        b.HeadBlock = a.BlockNum := by
  cases hc : collect outOfRange ⟨0, 0, []⟩ res.Actions with
  | error e =>
    rw [step_seqError outOfRange s filters st r res e hpage hc] at hemit
    simp at hemit
  | ok b1 =>
    by_cases hn : b1.HeadGlobalSequence = st.globalSequenceLowerBound ∨ res.Actions = []
    · rw [step_noProgress outOfRange s filters st r res b1 hpage hc hn] at hemit
      simp at hemit
    · rw [not_or] at hn
      by_cases hp : st.globalSequenceLowerBound < b1.HeadGlobalSequence
      · rw [step_progress outOfRange s filters st r res b1 hpage hc hp] at hemit
        cases hctx : r.ctxDone with
        | some e => rw [hctx] at hemit; simp at hemit
        | none =>
          rw [hctx] at hemit
          simp only [List.mem_cons, reduceCtorEq, Event.emit.injEq, List.mem_nil_iff, or_false,
            false_or] at hemit
          subst hemit
          obtain ⟨h1, _, h3, h4⟩ := collect_spec outOfRange res.Actions ⟨0, 0, []⟩ b hc
          simp only [List.nil_append] at h1
          refine ⟨h1, by rw [h1, List.length_map], h3, ?_⟩
          rcases h4 with ⟨h5, _⟩ | ⟨_, pre, a, post, h6, h7, h8, h9⟩
          · simp only at h5; omega
          · refine ⟨pre, a, post, h6, h7, ?_, h8⟩
            intro x hx hxe
            exact absurd (h9 x hx _ hxe) (lt_irrefl _)
      · rw [step_outOfOrder outOfRange s filters st r res b1 hpage hc hn.2
          (by have := hn.1; omega)] at hemit
        simp at hemit

/-- Witness of C2: sequence numbers 100 and 105 in block 10, from cursor 50, give
a batch with head 105, head block 10 and the two payloads. -/
theorem emitted_batch_contents_witness :
    (step zeroOutOfRange exampleStreamer [] ⟨50, 0⟩
        (examplePage [exampleAction 100 10 "a", exampleAction 105 10 "b"])).events =
      [.query (buildQuery exampleStreamer [] 50), .emit ⟨105, 10, ["a", "b"]⟩] ∧
    ((⟨105, 10, ["a", "b"]⟩ : Batch).Actions =
        [exampleAction 100 10 "a", exampleAction 105 10 "b"].map (fun a => a.Act) ∧
      (⟨105, 10, ["a", "b"]⟩ : Batch).Actions.length = 2) :=
  ⟨by decide,
    (emitted_batch_contents zeroOutOfRange exampleStreamer [] ⟨50, 0⟩
      (examplePage [exampleAction 100 10 "a", exampleAction 105 10 "b"])
      ⟨[exampleAction 100 10 "a", exampleAction 105 10 "b"]⟩ ⟨105, 10, ["a", "b"]⟩
      ⟨200, rfl, by decide, by decide⟩ (by decide)).1,
    (emitted_batch_contents zeroOutOfRange exampleStreamer [] ⟨50, 0⟩
      (examplePage [exampleAction 100 10 "a", exampleAction 105 10 "b"])
      ⟨[exampleAction 100 10 "a", exampleAction 105 10 "b"]⟩ ⟨105, 10, ["a", "b"]⟩
      ⟨200, rfl, by decide, by decide⟩ (by decide)).2.1⟩

/-- C3 (amended): each query of a run carries
`global_sequence=<(L+1) mod 2^64>-9223372036854775807`, `L` being the head of
the batch emitted last before the query, or the starting cursor when there is
none; whenever `L` is below `2 ^ 64 - 1` the range starts at `L + 1`; and two
queries with no batch emitted between them are identical, so the query after a
429 or a caught-up page repeats the range. -/
theorem query_carries_cursor_range (outOfRange : Float64 → Nat) (s : Streamer) (start : Nat)
    (filters : List Filter) (rounds : List Round) (pre post : List Event)
    (q : List (String × String))
    (h : (Start outOfRange s start filters rounds).events = pre ++ .query q :: post) :
    q = buildQuery s filters (lastHead start pre) ∧
      List.lookup "global_sequence" q =
        some (toString ((lastHead start pre + 1) % 2 ^ 64) ++ "-" ++ "9223372036854775807") ∧
      (lastHead start pre < 2 ^ 64 - 1 →
        List.lookup "global_sequence" q =
          some (toString (lastHead start pre + 1) ++ "-" ++ "9223372036854775807")) ∧
      (∀ pre1 q1 mid, pre = pre1 ++ .query q1 :: mid → sent mid = [] → q1 = q) := by
  have hf := run_queriesFollow outOfRange s filters rounds ⟨start, 0⟩
  have hev : (run outOfRange s filters ⟨start, 0⟩ rounds).events = pre ++ .query q :: post := h
  rw [hev] at hf
  have hq := queriesFollow_split s filters start pre post q hf
  have hl : List.lookup "global_sequence" q =
      some (toString ((lastHead start pre + 1) % 2 ^ 64) ++ "-" ++ "9223372036854775807") := by
    rw [hq, lookup_buildQuery, rangeParam_eq]
  refine ⟨hq, hl, ?_, ?_⟩
  · intro hlt
    rw [hl, Nat.mod_eq_of_lt (by omega)]
  · intro pre1 q1 mid hpre hmid
    rw [hpre, List.append_assoc] at hf
    have hq1 := queriesFollow_split s filters start pre1 _ q1 hf
    rw [hq, hq1, hpre, lastHead_append]
    simp only [lastHead]
    rw [lastHead_of_sent_nil mid _ hmid]

/-- Witness of C3: restarting from cursor 105, a 429 followed by an empty page
gives two queries, each for the range 106 and up. -/
theorem query_carries_cursor_range_witness :
    (Start zeroOutOfRange exampleStreamer 105 [] [rateLimitedRound, examplePage []]).events =
      [] ++ .query (buildQuery exampleStreamer [] 105) ::
        [.rateLimitWait (20 * Second), .query (buildQuery exampleStreamer [] 105),
          .backoffWait (30 * Second)] ∧
    List.lookup "global_sequence" (buildQuery exampleStreamer [] 105) =
      some (toString ((lastHead 105 [] + 1) % 2 ^ 64) ++ "-" ++ "9223372036854775807") :=
  ⟨by decide,
    (query_carries_cursor_range zeroOutOfRange exampleStreamer 105 []
      [rateLimitedRound, examplePage []] []
      [.rateLimitWait (20 * Second), .query (buildQuery exampleStreamer [] 105),
        .backoffWait (30 * Second)]
      (buildQuery exampleStreamer [] 105) (by decide)).2.1⟩

/-- C3 as stated fails for the cursor `2 ^ 64 - 1`: the addition wraps and the
query asks for the range starting at 0, not at `2 ^ 64`. -/
theorem query_range_wraps :
    (Start zeroOutOfRange exampleStreamer (2 ^ 64 - 1) [] [examplePage []]).events =
      [.query (buildQuery exampleStreamer [] (2 ^ 64 - 1)), .backoffWait (30 * Second)] ∧
    List.lookup "global_sequence" (buildQuery exampleStreamer [] (2 ^ 64 - 1)) =
      some "0-9223372036854775807" ∧
    List.lookup "global_sequence" (buildQuery exampleStreamer [] (2 ^ 64 - 1)) ≠
      some (toString (2 ^ 64 - 1 + 1) ++ "-" ++ "9223372036854775807") := by
  decide

theorem wrapInt64_of_range (x : Int) (h0 : -(2 ^ 63) ≤ x) (h1 : x < 2 ^ 63) : wrapInt64 x = x := by
  unfold wrapInt64
  omega

theorem effectiveBase_pos (s : Streamer) : 0 < effectiveBase s := by
  unfold effectiveBase Millisecond Second
  split <;> omega

/-- With the counter capped at 10 its square is converted to a duration
unchanged, so only the final product can leave the signed 64-bit range. -/
theorem backoffDuration_eq (s : Streamer) (k : Nat) (hk : k ≤ 10) :
    backoffDuration s k = wrapInt64 ((k : Int) * (k : Int) * effectiveBase s) := by
  unfold backoffDuration effectiveBase
  have hsq : k * k ≤ 100 := Nat.mul_le_mul hk hk
  have h1 : k * k % 2 ^ 64 = k * k := Nat.mod_eq_of_lt (by omega)
  have h2 : wrapInt64 ((k * k : Nat) : Int) = ((k * k : Nat) : Int) :=
    wrapInt64_of_range _ (by omega) (by omega)
  rw [h1, h2]
  push_cast
  rfl

/-- C4: on a decoded page that has no action, or whose head equals the cursor
`c`, the iteration emits nothing, leaves the cursor at `c` and moves the
counter from `n` to `min (n + 1) 10` (for every counter value short of the
wrap of the machine integer, in particular for every value from 0 to 10); and
in every run the counter stays within 0 to 10. -/
theorem caught_up_page (outOfRange : Float64 → Nat) (s : Streamer) (filters : List Filter) :
    (∀ (c n : Nat) (r : Round) (res : getActionsResponse) (b : Batch),
      n + 1 < 2 ^ 64 → decodesTo r res →
      collect outOfRange ⟨0, 0, []⟩ res.Actions = .ok b →
      (res.Actions = [] ∨ b.HeadGlobalSequence = c) →
      sent (step outOfRange s filters ⟨c, n⟩ r).events = [] ∧
        (step outOfRange s filters ⟨c, n⟩ r).state.globalSequenceLowerBound = c ∧
        (step outOfRange s filters ⟨c, n⟩ r).state.numWaitsSinceCatchup = min (n + 1) 10) ∧
    (∀ (start : Nat) (rounds : List Round),
      (Start outOfRange s start filters rounds).state.numWaitsSinceCatchup ≤ 10) := by
  constructor
  · intro c n r res b hn hpage hc hnp
    rw [step_noProgress outOfRange s filters ⟨c, n⟩ r res b hpage hc (Or.symm hnp)]
    refine ⟨by simp [sent], rfl, ?_⟩
    show incrementWaits n = min (n + 1) 10
    unfold incrementWaits
    have h1 : (n + 1) % 2 ^ 64 = n + 1 := Nat.mod_eq_of_lt hn
    simp only [h1]
    split <;> omega
  · intro start rounds
    exact run_counter_le outOfRange s filters rounds ⟨start, 0⟩ (by simp)

/-- Witness of C4: with cursor 105 and counter 10, a page whose only action is
number 105 emits nothing, keeps the cursor and leaves the counter at 10. -/
theorem caught_up_page_witness :
    sent (step zeroOutOfRange exampleStreamer [] ⟨105, 10⟩
        (examplePage [exampleAction 105 10 "b"])).events = [] ∧
      (step zeroOutOfRange exampleStreamer [] ⟨105, 10⟩
        (examplePage [exampleAction 105 10 "b"])).state.globalSequenceLowerBound = 105 ∧
      (step zeroOutOfRange exampleStreamer [] ⟨105, 10⟩
        (examplePage [exampleAction 105 10 "b"])).state.numWaitsSinceCatchup = min (10 + 1) 10 :=
  (caught_up_page zeroOutOfRange exampleStreamer []).1 105 10
    (examplePage [exampleAction 105 10 "b"]) ⟨[exampleAction 105 10 "b"]⟩ ⟨105, 10, ["b"]⟩
    (by decide) ⟨200, rfl, by decide, by decide⟩ (by decide) (Or.inr rfl)

/-! ## Pages counted on the rounds -/

theorem decodedPage_of_decodesTo (r : Round) (res : getActionsResponse) (h : decodesTo r res) :
    decodedPage r = some res := by
  obtain ⟨status, hf, h1, h2⟩ := h
  unfold decodedPage
  rw [hf]
  simp [h1, h2]

theorem decodedPage_rateLimited (r : Round) (body : Option getActionsResponse)
    (h : r.fetch = .response 429 body) : decodedPage r = none := by
  unfold decodedPage
  rw [h]
  cases body <;> simp

theorem isNoProgressPage_of (outOfRange : Float64 → Nat) (c : Nat) (r : Round)
    (res : getActionsResponse) (b : Batch) (h : decodesTo r res)
    (hc : collect outOfRange ⟨0, 0, []⟩ res.Actions = .ok b)
    (hn : b.HeadGlobalSequence = c ∨ res.Actions = []) :
    isNoProgressPage outOfRange c r = true := by
  unfold isNoProgressPage
  rw [decodedPage_of_decodesTo r res h]
  simp only [hc]
  rcases hn with hn | hn
  · simp [hn]
  · simp [hn]

theorem progressHead_of (outOfRange : Float64 → Nat) (c : Nat) (r : Round)
    (res : getActionsResponse) (b : Batch) (h : decodesTo r res)
    (hc : collect outOfRange ⟨0, 0, []⟩ res.Actions = .ok b)
    (hp : c < b.HeadGlobalSequence) :
    isNoProgressPage outOfRange c r = false ∧
      progressHead outOfRange c r = some b.HeadGlobalSequence := by
  have hne : res.Actions ≠ [] := by
    intro hnil
    rw [hnil, collect_nil] at hc
    cases hc
    simp at hp
  unfold isNoProgressPage progressHead
  rw [decodedPage_of_decodesTo r res h]
  simp only [hc]
  constructor
  · have h1 : res.Actions.isEmpty = false := by
      cases hA : res.Actions with
      | nil => exact absurd hA hne
      | cons x xs => rfl
    have h2 : (b.HeadGlobalSequence == c) = false := by
      rw [beq_eq_false_iff_ne]; omega
    rw [h1, h2]; rfl
  · rw [if_pos hp]

theorem rateLimited_kind (outOfRange : Float64 → Nat) (c : Nat) (r : Round)
    (body : Option getActionsResponse) (h : r.fetch = .response 429 body) :
    isNoProgressPage outOfRange c r = false ∧ progressHead outOfRange c r = none := by
  unfold isNoProgressPage progressHead
  rw [decodedPage_rateLimited r body h]
  exact ⟨rfl, rfl⟩

/-- While the loop is running its cursor and its counter are the cursor and the
capped count of no-progress pages read off the rounds. -/
theorem run_state_pages (outOfRange : Float64 → Nat) (s : Streamer) (filters : List Filter)
    (rounds : List Round) : ∀ (st : LoopState) (k : Nat),
    st.numWaitsSinceCatchup = min 10 k →
    (run outOfRange s filters st rounds).result = .running →
    (run outOfRange s filters st rounds).state =
      ⟨(pagesSinceProgress outOfRange st.globalSequenceLowerBound k rounds).1,
        min 10 (pagesSinceProgress outOfRange st.globalSequenceLowerBound k rounds).2⟩ := by
  induction rounds with
  | nil =>
    intro st k hk _
    rw [run_nil]
    simp only [pagesSinceProgress]
    rw [← hk]
  | cons r rs ih =>
    intro st k hk hrun
    cases hr : (step outOfRange s filters st r).result with
    | returned err =>
      rw [run_cons_returned outOfRange s filters st r rs err hr, hr] at hrun
      cases hrun
    | running =>
      rw [run_cons_running outOfRange s filters st r rs hr] at hrun ⊢
      simp only at hrun ⊢
      rcases round_cases r with h | h | ⟨body, h⟩ | ⟨status, body, h, h1, h2⟩ |
        ⟨status, h, h1, h2⟩ | ⟨res, h⟩
      · rw [step_newRequestError outOfRange s filters st r h] at hr; cases hr
      · rw [step_doError outOfRange s filters st r h] at hr; cases hr
      · have hs := step_rateLimited outOfRange s filters st r body h
        have hkind := rateLimited_kind outOfRange st.globalSequenceLowerBound r body h
        rw [hs] at hrun ⊢
        simp only at hrun ⊢
        rw [ih st k hk hrun]
        simp [pagesSinceProgress, hkind.1, hkind.2]
      · rw [step_httpStatus outOfRange s filters st r status body h h1 h2] at hr; cases hr
      · rw [step_decodeBody outOfRange s filters st r status h h1 h2] at hr; cases hr
      · cases hc : collect outOfRange ⟨0, 0, []⟩ res.Actions with
        | error e => rw [step_seqError outOfRange s filters st r res e h hc] at hr; cases hr
        | ok b =>
          by_cases hn : b.HeadGlobalSequence = st.globalSequenceLowerBound ∨ res.Actions = []
          · have hs := step_noProgress outOfRange s filters st r res b h hc hn
            have hkind := isNoProgressPage_of outOfRange _ r res b h hc hn
            rw [hs] at hrun ⊢
            simp only at hrun ⊢
            rw [ih _ (k + 1) (incrementWaits_of_min _ k hk) hrun]
            simp [pagesSinceProgress, hkind]
          · rw [not_or] at hn
            by_cases hp : st.globalSequenceLowerBound < b.HeadGlobalSequence
            · have hs := step_progress outOfRange s filters st r res b h hc hp
              have hkind := progressHead_of outOfRange _ r res b h hc hp
              cases hctx : r.ctxDone with
              | some e => rw [hs, hctx] at hr; cases hr
              | none =>
                rw [hctx] at hs
                simp only at hs
                rw [hs] at hrun ⊢
                simp only at hrun ⊢
                rw [ih _ 0 (by simp) hrun]
                simp [pagesSinceProgress, hkind.1, hkind.2]
            · rw [step_outOfOrder outOfRange s filters st r res b h hc hn.2
                (by have := hn.1; omega)] at hr
              cases hr

/-- C5 (amended): when the loop is still running after the rounds `pre` and the
next round is a no-progress page (decoded, with zero actions or a head equal
to the cursor), the loop performs, right after the query of that round, a wait
of `k * k * base` reduced to the signed 64-bit range of a duration, where `k`
is the smaller of 10 and the number of no-progress pages seen since the last
progress-producing page or since the start, this one included and 429
responses neither counted nor resetting, and `base` is `SleepBase` when it is
at least 10 milliseconds and one second otherwise; the wait is `k * k * base`
itself whenever that product is below `2 ^ 63` nanoseconds. -/
theorem backoff_wait (outOfRange : Float64 → Nat) (s : Streamer) (start : Nat)
    (filters : List Filter) (pre post : List Round) (r : Round) (res : getActionsResponse)
    (b : Batch)
    (hrun : (Start outOfRange s start filters pre).result = .running)
    (hpage : decodesTo r res)
    (hc : collect outOfRange ⟨0, 0, []⟩ res.Actions = .ok b)
    (hnp : res.Actions = [] ∨ b.HeadGlobalSequence =
      (Start outOfRange s start filters pre).state.globalSequenceLowerBound) :
    (Start outOfRange s start filters pre).state.globalSequenceLowerBound =
        (pagesSinceProgress outOfRange start 0 pre).1 ∧
      (∃ tail, (Start outOfRange s start filters (pre ++ r :: post)).events =
        (Start outOfRange s start filters pre).events ++
          [.query (buildQuery s filters (pagesSinceProgress outOfRange start 0 pre).1),
            .backoffWait (wrapInt64
              (((min 10 ((pagesSinceProgress outOfRange start 0 pre).2 + 1) : Nat) : Int) *
                ((min 10 ((pagesSinceProgress outOfRange start 0 pre).2 + 1) : Nat) : Int) *
                effectiveBase s))] ++ tail) ∧
      (((min 10 ((pagesSinceProgress outOfRange start 0 pre).2 + 1) : Nat) : Int) *
          ((min 10 ((pagesSinceProgress outOfRange start 0 pre).2 + 1) : Nat) : Int) *
          effectiveBase s < 2 ^ 63 →
        wrapInt64
            (((min 10 ((pagesSinceProgress outOfRange start 0 pre).2 + 1) : Nat) : Int) *
              ((min 10 ((pagesSinceProgress outOfRange start 0 pre).2 + 1) : Nat) : Int) *
              effectiveBase s) =
          ((min 10 ((pagesSinceProgress outOfRange start 0 pre).2 + 1) : Nat) : Int) *
            ((min 10 ((pagesSinceProgress outOfRange start 0 pre).2 + 1) : Nat) : Int) *
            effectiveBase s) := by
  unfold Start at hrun hnp ⊢
  have hst := run_state_pages outOfRange s filters pre ⟨start, 0⟩ 0 (by simp) hrun
  simp only at hst
  have hstep := step_noProgress outOfRange s filters
    (run outOfRange s filters ⟨start, 0⟩ pre).state r res b hpage hc (Or.symm hnp)
  have hinc : incrementWaits (run outOfRange s filters ⟨start, 0⟩ pre).state.numWaitsSinceCatchup
      = min 10 ((pagesSinceProgress outOfRange start 0 pre).2 + 1) :=
    incrementWaits_of_min _ _ (by rw [hst])
  have hlb : (run outOfRange s filters ⟨start, 0⟩ pre).state.globalSequenceLowerBound =
      (pagesSinceProgress outOfRange start 0 pre).1 := by rw [hst]
  rw [hinc, hlb, backoffDuration_eq s _ (Nat.min_le_left _ _)] at hstep
  refine ⟨hlb, ?_, ?_⟩
  · rw [run_append outOfRange s filters pre (r :: post) ⟨start, 0⟩ hrun]
    simp only
    cases hsl : r.sleepFails with
    | true =>
      rw [hsl] at hstep
      simp only [if_true] at hstep
      rw [run_cons_returned outOfRange s filters _ r post (some .sleep) (by rw [hstep]), hstep]
      exact ⟨[], by simp⟩
    | false =>
      rw [hsl] at hstep
      simp only [Bool.false_eq_true, if_false] at hstep
      rw [run_cons_running outOfRange s filters _ r post (by rw [hstep]), hstep]
      exact ⟨(run outOfRange s filters
        ⟨(pagesSinceProgress outOfRange start 0 pre).1,
          min 10 ((pagesSinceProgress outOfRange start 0 pre).2 + 1)⟩ post).events, by simp⟩
  · intro hlt
    apply wrapInt64_of_range _ _ hlt
    have hb := effectiveBase_pos s
    have : (0 : Int) ≤
        ((min 10 ((pagesSinceProgress outOfRange start 0 pre).2 + 1) : Nat) : Int) *
          ((min 10 ((pagesSinceProgress outOfRange start 0 pre).2 + 1) : Nat) : Int) *
          effectiveBase s := by positivity
    omega

/-- Witness of C5: after an emitted page, an empty page waits once the base and
a following page with an unchanged head waits four times the base; after the
next emitted page the count is 0 again. -/
theorem backoff_wait_witness :
    (Start zeroOutOfRange exampleStreamer 50 []
        [examplePage [exampleAction 100 10 "a", exampleAction 105 10 "b"], examplePage [],
          examplePage [exampleAction 105 10 "b"]]).events =
      [.query (buildQuery exampleStreamer [] 50), .emit ⟨105, 10, ["a", "b"]⟩,
        .query (buildQuery exampleStreamer [] 105), .backoffWait (1 * (30 * Second)),
        .query (buildQuery exampleStreamer [] 105), .backoffWait (4 * (30 * Second))] ∧
    pagesSinceProgress zeroOutOfRange 50 0
        [examplePage [exampleAction 100 10 "a", exampleAction 105 10 "b"], examplePage []] =
      (105, 1) ∧
    pagesSinceProgress zeroOutOfRange 50 0
        [examplePage [exampleAction 100 10 "a", exampleAction 105 10 "b"], examplePage [],
          examplePage [exampleAction 105 10 "b"], examplePage [exampleAction 110 11 "c"]] =
      (110, 0) ∧
    (Start zeroOutOfRange exampleStreamer 50 []
        [examplePage [exampleAction 100 10 "a", exampleAction 105 10 "b"],
          examplePage []]).state.globalSequenceLowerBound =
      (pagesSinceProgress zeroOutOfRange 50 0
        [examplePage [exampleAction 100 10 "a", exampleAction 105 10 "b"], examplePage []]).1 ∧
    wrapInt64
        (((min 10 ((pagesSinceProgress zeroOutOfRange 50 0
            [examplePage [exampleAction 100 10 "a", exampleAction 105 10 "b"],
              examplePage []]).2 + 1) : Nat) : Int) *
          ((min 10 ((pagesSinceProgress zeroOutOfRange 50 0
            [examplePage [exampleAction 100 10 "a", exampleAction 105 10 "b"],
              examplePage []]).2 + 1) : Nat) : Int) *
          effectiveBase exampleStreamer) =
      ((min 10 ((pagesSinceProgress zeroOutOfRange 50 0
          [examplePage [exampleAction 100 10 "a", exampleAction 105 10 "b"],
            examplePage []]).2 + 1) : Nat) : Int) *
        ((min 10 ((pagesSinceProgress zeroOutOfRange 50 0
          [examplePage [exampleAction 100 10 "a", exampleAction 105 10 "b"],
            examplePage []]).2 + 1) : Nat) : Int) *
        effectiveBase exampleStreamer :=
  ⟨by decide, by decide, by decide,
    (backoff_wait zeroOutOfRange exampleStreamer 50 []
      [examplePage [exampleAction 100 10 "a", exampleAction 105 10 "b"], examplePage []] []
      (examplePage [exampleAction 105 10 "b"]) ⟨[exampleAction 105 10 "b"]⟩ ⟨105, 10, ["b"]⟩
      (by decide) ⟨200, rfl, by decide, by decide⟩ (by decide) (Or.inr (by decide))).1,
    (backoff_wait zeroOutOfRange exampleStreamer 50 []
      [examplePage [exampleAction 100 10 "a", exampleAction 105 10 "b"], examplePage []] []
      (examplePage [exampleAction 105 10 "b"]) ⟨[exampleAction 105 10 "b"]⟩ ⟨105, 10, ["b"]⟩
      (by decide) ⟨200, rfl, by decide, by decide⟩ (by decide) (Or.inr (by decide))).2.2
      (by decide)⟩

/-- C5 as stated fails when the product leaves the range of a duration: with
`SleepBase` at `2 ^ 63 - 1` nanoseconds the second no-progress page in a row
is followed by a wait of `-4` nanoseconds, not of `2 * 2 * SleepBase`. -/
theorem backoff_wait_overflows :
    (Start zeroOutOfRange ⟨"https://wax.greymass.com", 1000, 2 ^ 63 - 1⟩ 0 []
        [examplePage [], examplePage []]).events =
      [.query (buildQuery exampleStreamer [] 0), .backoffWait (2 ^ 63 - 1),
        .query (buildQuery exampleStreamer [] 0), .backoffWait (-4)] ∧
    isNoProgressPage zeroOutOfRange 0 (examplePage []) = true ∧
    effectiveBase ⟨"https://wax.greymass.com", 1000, 2 ^ 63 - 1⟩ = 2 ^ 63 - 1 ∧
    min 10 ((pagesSinceProgress zeroOutOfRange 0 0 [examplePage []]).2 + 1) = 2 ∧
    (-4 : Int) ≠ 2 * 2 * (2 ^ 63 - 1) := by
  decide

/-- C6: an iteration returns the out-of-order error exactly when the round is a
decoded page that is not empty and whose head is strictly below the cursor
`c`; the error names that head and `c`; in that case the only event of the
iteration is its query (no batch, no wait) and the loop stops there, whatever
rounds would follow. -/
theorem out_of_order_iff (outOfRange : Float64 → Nat) (s : Streamer) (filters : List Filter)
    (c n : Nat) (r : Round) :
    (∀ h l, (step outOfRange s filters ⟨c, n⟩ r).result = .returned (some (.outOfOrder h l)) ↔
      ∃ res b, decodesTo r res ∧ collect outOfRange ⟨0, 0, []⟩ res.Actions = .ok b ∧
        res.Actions ≠ [] ∧ b.HeadGlobalSequence < c ∧ h = b.HeadGlobalSequence ∧ l = c) ∧
    (∀ h l, (step outOfRange s filters ⟨c, n⟩ r).result = .returned (some (.outOfOrder h l)) →
      (step outOfRange s filters ⟨c, n⟩ r).events = [.query (buildQuery s filters c)] ∧
      ∀ rest, run outOfRange s filters ⟨c, n⟩ (r :: rest) =
        step outOfRange s filters ⟨c, n⟩ r) := by
  have key : ∀ h l,
      (step outOfRange s filters ⟨c, n⟩ r).result = .returned (some (.outOfOrder h l)) →
      (∃ res b, decodesTo r res ∧ collect outOfRange ⟨0, 0, []⟩ res.Actions = .ok b ∧
        res.Actions ≠ [] ∧ b.HeadGlobalSequence < c ∧ h = b.HeadGlobalSequence ∧ l = c) ∧
      (step outOfRange s filters ⟨c, n⟩ r).events = [.query (buildQuery s filters c)] := by
    intro h l hres
    rcases round_cases r with hf | hf | ⟨body, hf⟩ | ⟨status, body, hf, h1, h2⟩ |
      ⟨status, hf, h1, h2⟩ | ⟨res, hf⟩
    · rw [step_newRequestError outOfRange s filters _ r hf] at hres; simp at hres
    · rw [step_doError outOfRange s filters _ r hf] at hres; simp at hres
    · rw [step_rateLimited outOfRange s filters _ r body hf] at hres
      simp only at hres
      split at hres <;> simp at hres
    · rw [step_httpStatus outOfRange s filters _ r status body hf h1 h2] at hres; simp at hres
    · rw [step_decodeBody outOfRange s filters _ r status hf h1 h2] at hres; simp at hres
    · cases hc : collect outOfRange ⟨0, 0, []⟩ res.Actions with
      | error e =>
        rw [step_seqError outOfRange s filters _ r res e hf hc] at hres; simp at hres
      | ok b =>
        by_cases hn : b.HeadGlobalSequence = c ∨ res.Actions = []
        · rw [step_noProgress outOfRange s filters ⟨c, n⟩ r res b hf hc hn] at hres
          simp only at hres
          split at hres <;> simp at hres
        · rw [not_or] at hn
          by_cases hp : c < b.HeadGlobalSequence
          · rw [step_progress outOfRange s filters ⟨c, n⟩ r res b hf hc hp] at hres
            cases hctx : r.ctxDone <;> rw [hctx] at hres <;> simp at hres
          · have hlt : b.HeadGlobalSequence < c := by have := hn.1; omega
            rw [step_outOfOrder outOfRange s filters ⟨c, n⟩ r res b hf hc hn.2 hlt] at hres ⊢
            simp only [LoopResult.returned.injEq, Option.some.injEq,
              StreamError.outOfOrder.injEq] at hres
            exact ⟨⟨res, b, hf, hc, hn.2, hlt, hres.1.symm, hres.2.symm⟩, rfl⟩
  constructor
  · intro h l
    constructor
    · intro hres; exact (key h l hres).1
    · rintro ⟨res, b, hf, hc, hne, hlt, hh, hl⟩
      rw [step_outOfOrder outOfRange s filters ⟨c, n⟩ r res b hf hc hne hlt, hh, hl]
  · intro h l hres
    exact ⟨(key h l hres).2, fun rest => run_cons_returned outOfRange s filters _ r rest _ hres⟩

/-- Witness of C6: with cursor 105 a page holding only action 100 is an
ordering violation. -/
theorem out_of_order_iff_witness :
    (step zeroOutOfRange exampleStreamer [] ⟨105, 2⟩
        (examplePage [exampleAction 100 10 "a"])).result =
      .returned (some (.outOfOrder 100 105)) ∧
    (step zeroOutOfRange exampleStreamer [] ⟨105, 2⟩
        (examplePage [exampleAction 100 10 "a"])).events =
      [.query (buildQuery exampleStreamer [] 105)] :=
  ⟨by decide,
    ((out_of_order_iff zeroOutOfRange exampleStreamer [] 105 2
      (examplePage [exampleAction 100 10 "a"])).2 100 105 (by decide)).1⟩

/-- C8: when the loop is still running after the rounds `pre` and the next round
is a decoded page with an undecodable sequence number in it, the run over
`pre`, that page and any further rounds returns the `get global_sequence`
error, and its events are those of `pre` followed by the single query of the
failing iteration: nothing of that page is emitted, nothing follows, and what
was emitted before stays as it was. -/
theorem bad_sequence_stops (outOfRange : Float64 → Nat) (s : Streamer) (start : Nat)
    (filters : List Filter) (pre post : List Round) (r : Round) (res : getActionsResponse)
    (hrun : (Start outOfRange s start filters pre).result = .running)
    (hpage : decodesTo r res)
    (hbad : ∃ a ∈ res.Actions, badSequence a.GlobalSequence) :
    (∃ e, (Start outOfRange s start filters (pre ++ r :: post)).result =
        .returned (some (.getGlobalSequence e))) ∧
      (Start outOfRange s start filters (pre ++ r :: post)).events =
        (Start outOfRange s start filters pre).events ++
          [.query (buildQuery s filters
            (Start outOfRange s start filters pre).state.globalSequenceLowerBound)] ∧
      sent (Start outOfRange s start filters (pre ++ r :: post)).events =
        sent (Start outOfRange s start filters pre).events ∧
      (Start outOfRange s start filters (pre ++ r :: post)).state =
        (Start outOfRange s start filters pre).state := by
  obtain ⟨e, he⟩ := collect_error_of_bad outOfRange res.Actions ⟨0, 0, []⟩ hbad
  have hstep := step_seqError outOfRange s filters
    (run outOfRange s filters ⟨start, 0⟩ pre).state r res e hpage he
  have hret : (step outOfRange s filters (run outOfRange s filters ⟨start, 0⟩ pre).state r).result
      = .returned (some (.getGlobalSequence e)) := by rw [hstep]
  have happ := run_append outOfRange s filters pre (r :: post) ⟨start, 0⟩ hrun
  rw [run_cons_returned outOfRange s filters _ r post _ hret, hstep] at happ
  unfold Start
  rw [happ]
  exact ⟨⟨e, rfl⟩, rfl, by simp [sent_append, sent], rfl⟩

/-- Witness of C8: after one emitted page, a page whose second action has `null`
for a sequence number stops the loop; the first action of that page, though
beyond the cursor, is not emitted. -/
theorem bad_sequence_stops_witness :
    (Start zeroOutOfRange exampleStreamer 50 []
        ([examplePage [exampleAction 100 10 "a"]] ++
          examplePage [exampleAction 105 10 "b", ⟨11, .null, "c"⟩] ::
            [examplePage [exampleAction 110 11 "d"]])).events =
      (Start zeroOutOfRange exampleStreamer 50 [] [examplePage [exampleAction 100 10 "a"]]).events
        ++ [.query (buildQuery exampleStreamer []
          (Start zeroOutOfRange exampleStreamer 50 []
            [examplePage [exampleAction 100 10 "a"]]).state.globalSequenceLowerBound)] ∧
    sent (Start zeroOutOfRange exampleStreamer 50 []
        ([examplePage [exampleAction 100 10 "a"]] ++
          examplePage [exampleAction 105 10 "b", ⟨11, .null, "c"⟩] ::
            [examplePage [exampleAction 110 11 "d"]])).events = [⟨100, 10, ["a"]⟩] :=
  ⟨(bad_sequence_stops zeroOutOfRange exampleStreamer 50 []
      [examplePage [exampleAction 100 10 "a"]] [examplePage [exampleAction 110 11 "d"]]
      (examplePage [exampleAction 105 10 "b", ⟨11, .null, "c"⟩])
      ⟨[exampleAction 105 10 "b", ⟨11, .null, "c"⟩]⟩ (by decide)
      ⟨200, rfl, by decide, by decide⟩
      ⟨⟨11, .null, "c"⟩, by simp, trivial⟩).2.1,
    by decide⟩

/-- C9 (amended): when the context is already done at the final `select` of an
iteration on a progress-producing page, the iteration emits nothing and the
loop body returns `ctx.Err()`, a non-nil error, which is the one value sent on
the error channel; the loop stops there. -/
theorem cancelled_before_emission (outOfRange : Float64 → Nat) (s : Streamer)
    (filters : List Filter) (st : LoopState) (r : Round) (res : getActionsResponse) (b : Batch)
    (e : CtxError) (hpage : decodesTo r res)
    (hc : collect outOfRange ⟨0, 0, []⟩ res.Actions = .ok b)
    (hp : st.globalSequenceLowerBound < b.HeadGlobalSequence)
    (hctx : r.ctxDone = some e) :
    sent (step outOfRange s filters st r).events = [] ∧
      (step outOfRange s filters st r).result = .returned (some (.ctx e)) ∧
      sentErr (step outOfRange s filters st r).result = [.ctx e] ∧
      ∀ rest, run outOfRange s filters st (r :: rest) = step outOfRange s filters st r := by
  have hstep := step_progress outOfRange s filters st r res b hpage hc hp
  rw [hctx] at hstep
  simp only at hstep
  refine ⟨by rw [hstep]; rfl, by rw [hstep], by rw [hstep]; rfl, ?_⟩
  intro rest
  exact run_cons_returned outOfRange s filters st r rest (some (.ctx e)) (by rw [hstep])

/-- Witness of C9 as amended: from cursor 50, a page with action 100 and the
context cancelled at the final check. -/
theorem cancelled_before_emission_witness :
    sent (step zeroOutOfRange exampleStreamer [] ⟨50, 0⟩
        (cancelledPage [exampleAction 100 10 "a"])).events = [] ∧
      (step zeroOutOfRange exampleStreamer [] ⟨50, 0⟩
        (cancelledPage [exampleAction 100 10 "a"])).result =
        .returned (some (.ctx .canceled)) :=
  ⟨(cancelled_before_emission zeroOutOfRange exampleStreamer [] ⟨50, 0⟩
      (cancelledPage [exampleAction 100 10 "a"]) ⟨[exampleAction 100 10 "a"]⟩ ⟨100, 10, ["a"]⟩
      .canceled ⟨200, rfl, by decide, by decide⟩ (by decide) (by decide) rfl).1,
    (cancelled_before_emission zeroOutOfRange exampleStreamer [] ⟨50, 0⟩
      (cancelledPage [exampleAction 100 10 "a"]) ⟨[exampleAction 100 10 "a"]⟩ ⟨100, 10, ["a"]⟩
      .canceled ⟨200, rfl, by decide, by decide⟩ (by decide) (by decide) rfl).2.1⟩

/-- C9 as stated fails: with the context cancelled at the final check of a
progress-producing page the loop body does not return `nil`; it returns the
cancellation error, and that error is sent on the error channel. -/
theorem cancellation_is_reported :
    (Start zeroOutOfRange exampleStreamer 50 []
        [cancelledPage [exampleAction 100 10 "a"]]).result ≠ .returned none ∧
    (Start zeroOutOfRange exampleStreamer 50 []
        [cancelledPage [exampleAction 100 10 "a"]]).result =
      .returned (some (.ctx .canceled)) ∧
    sentErr (Start zeroOutOfRange exampleStreamer 50 []
        [cancelledPage [exampleAction 100 10 "a"]]).result = [.ctx .canceled] ∧
    sent (Start zeroOutOfRange exampleStreamer 50 []
        [cancelledPage [exampleAction 100 10 "a"]]).events = [] := by
  decide

/-! ## Claims on `getGlobalSequence` -/

/-- C7 (amended): for every unsigned 64-bit integer `n`, `getGlobalSequence` on
the decimal string of `n` returns `n`; on the JSON number `n` (written `n` or
`n.0`, decoded into a `float64`) it succeeds for every `n`, returning the
conversion of that `float64`, and the value returned is `n` whenever a
`float64` holds `n` exactly, that is when `n ≤ 2 ^ 53` or `n` has no bits
below its 53 leading ones. -/
theorem getGlobalSequence_string_number (outOfRange : Float64 → Nat) (n blk : Nat)
    (payload : RawMessage) (hn : n < 2 ^ 64) :
    getGlobalSequence outOfRange ⟨blk, .string (toString n), payload⟩ = .ok n ∧
      getGlobalSequence outOfRange ⟨blk, .number (decodeNumber n), payload⟩ =
        .ok (toUint64 outOfRange (decodeNumber n)) ∧
      ((n ≤ 2 ^ 53 ∨ n % 2 ^ excessBits n n = 0) →
        getGlobalSequence outOfRange ⟨blk, .number (decodeNumber n), payload⟩ = .ok n) := by
  refine ⟨?_, rfl, ?_⟩
  · rw [getGlobalSequence_string, parseUint_toString n hn]
  · intro h
    have hex : n % 2 ^ excessBits n n = 0 := by
      rcases h with h | h
      · exact exact_of_le n h
      · exact h
    show Except.ok (toUint64 outOfRange (decodeNumber n)) = Except.ok n
    rw [toUint64_decodeNumber outOfRange n hn hex]

/-- Witness of C7: `"12345"`, `12345` and `12345.0` all give 12345, and the
number `2 ^ 64 - 1`, which no `float64` holds exactly, still comes back
without an error. -/
theorem getGlobalSequence_string_number_witness :
    getGlobalSequence zeroOutOfRange ⟨7, .string "12345", "p"⟩ = .ok 12345 ∧
      getGlobalSequence zeroOutOfRange ⟨7, .number (decodeNumber 12345), "p"⟩ = .ok 12345 ∧
      getGlobalSequence zeroOutOfRange ⟨7, .number (decodeNumber (2 ^ 64 - 1)), "p"⟩ =
        .ok (toUint64 zeroOutOfRange (decodeNumber (2 ^ 64 - 1))) :=
  ⟨(getGlobalSequence_string_number zeroOutOfRange 12345 7 "p" (by decide)).1,
    (getGlobalSequence_string_number zeroOutOfRange 12345 7 "p" (by decide)).2.2
      (Or.inl (by decide)),
    (getGlobalSequence_string_number zeroOutOfRange (2 ^ 64 - 1) 7 "p" (by decide)).2.1⟩

/-- C7 as stated fails: the JSON number 9007199254740993, which is `2 ^ 53 + 1`,
is decoded into the `float64` 9007199254740992 and `getGlobalSequence` returns
that, while the decimal string of the same integer gives 9007199254740993. -/
theorem getGlobalSequence_number_inexact :
    getGlobalSequence zeroOutOfRange ⟨7, .string (toString 9007199254740993), "p"⟩
        = .ok 9007199254740993 ∧
      getGlobalSequence zeroOutOfRange ⟨7, .number (decodeNumber 9007199254740993), "p"⟩
        = .ok 9007199254740992 ∧
      getGlobalSequence zeroOutOfRange ⟨7, .number (decodeNumber 9007199254740993), "p"⟩
        ≠ .ok 9007199254740993 := by
  decide

/-- C10: `getGlobalSequence` returns an error exactly when the decoded value is
neither a string nor a number, or is a string that is not a base-10 unsigned
64-bit integer (empty, signed or otherwise not all digits, or above
`2 ^ 64 - 1`), which are the strings `ParseUint` rejects; on every number,
whatever its value, it returns the converted value and no error. -/
theorem getGlobalSequence_error_iff (outOfRange : Float64 → Nat)
    (act : getActionsResponseAction) :
    ((∃ e, getGlobalSequence outOfRange act = .error e) ↔ badSequence act.GlobalSequence) ∧
      (∀ s, act.GlobalSequence = .string s →
        ((∃ e, getGlobalSequence outOfRange act = .error e) ↔ ∃ e, parseUint s = .error e)) ∧
      (∀ s, (∃ e, parseUint s = .error e) ↔
        (s = "" ∨ (∃ c ∈ s.data, ¬ isDecimalDigit c) ∨ 2 ^ 64 - 1 < decimalValue s.data)) ∧
      (∀ f, act.GlobalSequence = .number f →
        getGlobalSequence outOfRange act = .ok (toUint64 outOfRange f)) := by
  refine ⟨badSequence_iff_error outOfRange act, ?_, ?_, ?_⟩
  · intro s hs
    obtain ⟨blk, v, payload⟩ := act
    simp only at hs
    subst hs
    rw [getGlobalSequence_string]
    cases parseUint s <;> simp
  · intro s
    rw [parseUint_error_iff]
    unfold isBase10Uint64
    constructor
    · intro h
      by_contra hc
      push_neg at hc
      exact h ⟨hc.1, hc.2.1, by omega⟩
    · rintro (h | ⟨c, hc, hd⟩ | h) ⟨h1, h2, h3⟩
      · exact h1 h
      · exact hd (h2 c hc)
      · omega
  · intro f hf
    obtain ⟨blk, v, payload⟩ := act
    simp only at hf
    subst hf
    rfl

/-- Witness of C10: a signed string is rejected, and so is `null`, while the
numbers `-1` and `2 ^ 64` come back without an error. -/
theorem getGlobalSequence_error_iff_witness :
    (∃ e, getGlobalSequence zeroOutOfRange ⟨7, .string "+5", "p"⟩ = .error e) ∧
      (∃ e, getGlobalSequence zeroOutOfRange ⟨7, .null, "p"⟩ = .error e) ∧
      getGlobalSequence zeroOutOfRange ⟨7, .number ⟨true, 1, 0⟩, "p"⟩ =
        .ok (toUint64 zeroOutOfRange ⟨true, 1, 0⟩) ∧
      getGlobalSequence zeroOutOfRange ⟨7, .number ⟨false, 1, 64⟩, "p"⟩ =
        .ok (toUint64 zeroOutOfRange ⟨false, 1, 64⟩) :=
  ⟨(getGlobalSequence_error_iff zeroOutOfRange ⟨7, .string "+5", "p"⟩).1.2
      (by show ¬ isBase10Uint64 "+5"; decide),
    (getGlobalSequence_error_iff zeroOutOfRange ⟨7, .null, "p"⟩).1.2 trivial,
    (getGlobalSequence_error_iff zeroOutOfRange ⟨7, .number ⟨true, 1, 0⟩, "p"⟩).2.2.2 _ rfl,
    (getGlobalSequence_error_iff zeroOutOfRange ⟨7, .number ⟨false, 1, 64⟩, "p"⟩).2.2.2 _ rfl⟩

end Hyperion
